import Mathlib

/-!
# The BPF object loader (`src/android/loader.cc`)

A shallow embedding of the loader.  Conventions of the model:

* a file, a section, a string table and an instruction buffer are lists of
  byte values (`Bytes`); integers are decoded little-endian, every byte taken
  modulo 256;
* a C function returning an `int` status is a function into `Res`: `ok v` is
  "returned 0" with the values `v` it stored through its out-pointers,
  `err c` is "returned the non-zero status `c`", and `ub` is an access outside
  an object or a use of an indeterminate value (the C program has no defined
  result there);
* a pointer that may be `NULL` is an `Option`;
* the object file exists and can be opened, and `malloc`/`calloc` return a
  valid pointer, also for a block of size 0; a block has the size it was
  requested with, and a store past its end is `ub`; `free` and the lifetime
  of heap blocks are not part of the model.
-/

namespace Loader

/-! ## Outcomes -/

/-- Outcome of a C call: returned 0, returned a non-zero status, or undefined. -/
inductive Res (α : Type) where
  | ok : α → Res α
  | err : Int → Res α
  | ub : Res α
deriving DecidableEq, Repr

/-! ## Bytes and machine integers -/

abbrev Bytes := List Nat

/-- The bytes of a string literal. -/
def cstr (s : String) : Bytes := s.toList.map Char.toNat

/-- Little-endian unsigned integer of `n` bytes at offset `off`. -/
def le_uint (b : Bytes) (off : Nat) : Nat → Nat
  | 0 => 0
  | n + 1 => b.getD off 0 % 256 + 256 * le_uint b (off + 1) n

/-- Little-endian encoding of `x` on `n` bytes. -/
def le_bytes (x : Nat) : Nat → Bytes
  | 0 => []
  | n + 1 => x % 256 :: le_bytes (x / 256) n

/-- Conversion to the C type `int` (32 bits, two's complement): the value is
reduced modulo 2^32, and a remainder `r` of 2^31 or more stands for
`r - 2^32`. -/
def int32 (x : Int) : Int :=
  match x % 4294967296 with
  | Int.ofNat r => if r < 2147483648 then Int.ofNat r else Int.negSucc (4294967295 - r)
  | Int.negSucc _ => 0

/-- The C string starting at the first byte of `mem`: the bytes before the
first NUL.  `none` when `mem` holds no NUL, that is when reading the string
runs past the end of the object. -/
def c_str : Bytes → Option Bytes
  | [] => none
  | c :: cs => if c = 0 then some [] else (c_str cs).map (c :: ·)

/-- The test `strncmp(a, b, n) == 0` on two C strings given by their contents. -/
def strncmp_eq : Bytes → Bytes → Nat → Bool
  | _, _, 0 => true
  | [], [], _ + 1 => true
  | [], _ :: _, _ + 1 => false
  | _ :: _, [], _ + 1 => false
  | a :: as, b :: bs, n + 1 => a == b && strncmp_eq as bs n

/-- The test `strcmp(a, b) == 0` on two C strings given by their contents. -/
def strcmp_eq (a b : Bytes) : Bool := a == b

/-! ## Reading the file -/

/-- `fseek(f, off, SEEK_SET) == 0`: the offset is passed as a `long`, and a
negative one is refused. -/
def fseek_ok (off : Nat) : Bool := off < 9223372036854775808

/-- `fread(buf, size, 1, f) == 1` at position `pos`: the item read, or `none`
when no complete item is read (also when `size` is 0, where `fread` returns 0). -/
def fread1 (f : Bytes) (pos size : Nat) : Option Bytes :=
  if 0 < size ∧ pos + size ≤ f.length then some ((f.drop pos).take size) else none

structure Elf64_Ehdr where
  e_shoff : Nat
  e_shentsize : Nat
  e_shnum : Nat
  e_shstrndx : Nat
deriving DecidableEq, Repr

structure Elf64_Shdr where
  sh_name : Nat
  sh_type : Nat
  sh_flags : Nat
  sh_addr : Nat
  sh_offset : Nat
  sh_size : Nat
  sh_link : Nat
  sh_info : Nat
  sh_addralign : Nat
  sh_entsize : Nat
deriving DecidableEq, Repr

structure Elf64_Sym where
  st_name : Nat
  st_info : Nat
  st_other : Nat
  st_shndx : Nat
  st_value : Nat
  st_size : Nat
deriving DecidableEq, Repr

structure Elf64_Rel where
  r_offset : Nat
  r_info : Nat
deriving DecidableEq, Repr

/-- The `i`-th `Elf64_Shdr` (64 bytes) of an array stored in `b`. -/
def decode_shdr (b : Bytes) (i : Nat) : Elf64_Shdr :=
  { sh_name := le_uint b (64 * i) 4
    sh_type := le_uint b (64 * i + 4) 4
    sh_flags := le_uint b (64 * i + 8) 8
    sh_addr := le_uint b (64 * i + 16) 8
    sh_offset := le_uint b (64 * i + 24) 8
    sh_size := le_uint b (64 * i + 32) 8
    sh_link := le_uint b (64 * i + 40) 4
    sh_info := le_uint b (64 * i + 44) 4
    sh_addralign := le_uint b (64 * i + 48) 8
    sh_entsize := le_uint b (64 * i + 56) 8 }

/-- The `i`-th `Elf64_Sym` (24 bytes) of an array stored in `b`. -/
def decode_sym (b : Bytes) (i : Nat) : Elf64_Sym :=
  { st_name := le_uint b (24 * i) 4
    st_info := le_uint b (24 * i + 4) 1
    st_other := le_uint b (24 * i + 5) 1
    st_shndx := le_uint b (24 * i + 6) 2
    st_value := le_uint b (24 * i + 8) 8
    st_size := le_uint b (24 * i + 16) 8 }

/-- The `i`-th `Elf64_Rel` (16 bytes) of an array stored in `b`. -/
def decode_rel (b : Bytes) (i : Nat) : Elf64_Rel :=
  { r_offset := le_uint b (16 * i) 8
    r_info := le_uint b (16 * i + 8) 8 }

/-- `read_elf64_header`: `fread(eh, sizeof(*eh), 1, f) != 1` gives -1. -/
def read_elf64_header (elf : Bytes) : Res Elf64_Ehdr :=
  match fread1 elf 0 64 with
  | none => .err (-1)
  | some h => .ok
      { e_shoff := le_uint h 40 8
        e_shentsize := le_uint h 58 2
        e_shnum := le_uint h 60 2
        e_shstrndx := le_uint h 62 2 }

/-- `read_section64_headers_all`: the table is read with
`fread(sh_table, e_shentsize, e_shnum, f)` into an array of `e_shnum` elements
of 64 bytes.  With another entry size the read either runs over the array or
leaves a part of it indeterminate: `ub`. -/
def read_section64_headers_all (elf : Bytes) : Res (List Elf64_Shdr) :=
  match read_elf64_header elf with
  | .err c => .err c
  | .ub => .ub
  | .ok eh =>
    if ¬ fseek_ok eh.e_shoff then .err (-1)
    else if eh.e_shnum = 0 then .ok []
    else if eh.e_shentsize = 0 then .err (-1)
    else if 64 * eh.e_shnum < min (eh.e_shentsize * eh.e_shnum) (elf.length - eh.e_shoff) then .ub
    else if elf.length < eh.e_shoff + eh.e_shentsize * eh.e_shnum then .err (-1)
    else if eh.e_shentsize ≠ 64 then .ub
    else .ok ((List.range eh.e_shnum).map (decode_shdr (elf.drop eh.e_shoff)))

/-- `read_section64_by_id`: `sh_table[id]` is read without a bound on `id`.
A failing `fseek` or `fread` jumps to `cleanup` with `ret` still 0: the call
returns 0 with `*bytes = 0` and `*section = NULL`. -/
def read_section64_by_id (elf : Bytes) (id : Nat) : Res (Int × Option Bytes) :=
  match read_section64_headers_all elf with
  | .err c => .err c
  | .ub => .ub
  | .ok sh_table =>
    match sh_table.get? id with
    | none => .ub
    | some sh =>
      if ¬ fseek_ok sh.sh_offset then .ok (0, none)
      else match fread1 elf sh.sh_offset sh.sh_size with
        | none => .ok (0, none)
        | some sec => .ok (int32 sh.sh_size, some sec)

/-- `read_section64_header_strtab`. -/
def read_section64_header_strtab (elf : Bytes) : Res (Int × Option Bytes) :=
  match read_elf64_header elf with
  | .err c => .err c
  | .ub => .ub
  | .ok eh => read_section64_by_id elf eh.e_shstrndx

/-- The body of `get_sym64_name` once the string table is read: `bytes` is
its size as an `int`, `sec_strtab` the blob (or `NULL`), `name_off` the offset
as an `int`. -/
def sym64_name_at (bytes : Int) (sec_strtab : Option Bytes) (name_off : Int) : Res Bytes :=
  if name_off ≥ bytes then .err (-1)
  else match sec_strtab with
    | none => .ub
    | some blob =>
      if name_off < 0 then .ub
      else match c_str (blob.drop name_off.toNat) with
        | none => .ub
        | some name => .ok name

/-- `get_sym64_name`: the name is looked up in the section-header string
table; `name_off` has the C type `int`. -/
def get_sym64_name (elf : Bytes) (name_off : Int) : Res Bytes :=
  match read_section64_header_strtab elf with
  | .err c => .err c
  | .ub => .ub
  | .ok (bytes, sec_strtab) => sym64_name_at bytes sec_strtab name_off

/-- The section `sh`: `fseek` to `sh_offset` and `fread` of `sh_size` bytes,
-1 when either fails. -/
def read_found (elf : Bytes) (sh : Elf64_Shdr) : Res (Int × Option Bytes) :=
  if ¬ fseek_ok sh.sh_offset then .err (-1)
  else match fread1 elf sh.sh_offset sh.sh_size with
    | none => .err (-1)
    | some data => .ok (int32 sh.sh_size, some data)

/-- The loop of `read_section64_by_name` over the section table.  `bytes0` is
the value `*bytes` holds when the loop ends without a match; `*ptr` is then not
written (`none`). -/
def by_name_loop (elf : Bytes) (name : Bytes) (bytes0 : Int) (sec_strtab : Option Bytes) :
    List Elf64_Shdr → Res (Int × Option Bytes)
  | [] => .ok (bytes0, none)
  | sh :: rest =>
    match sec_strtab with
    | none => if sh.sh_name = 0 then by_name_loop elf name bytes0 sec_strtab rest else .ub
    | some blob =>
      match c_str (blob.drop sh.sh_name) with
      | none => .ub
      | some secname =>
        if strcmp_eq secname name then read_found elf sh
        else by_name_loop elf name bytes0 sec_strtab rest

/-- `read_section64_by_name`: the out-pointer `*ptr` is written only when a
section is found; the callers initialise it to `NULL`. -/
def read_section64_by_name (name : Bytes) (elf : Bytes) : Res (Int × Option Bytes) :=
  match read_section64_headers_all elf with
  | .err c => .err c
  | .ub => .ub
  | .ok sh_table =>
    match read_section64_header_strtab elf with
    | .err c => .err c
    | .ub => .ub
    | .ok (bytes, sec_strtab) => by_name_loop elf name bytes sec_strtab sh_table

/-- The loop of `read_section64_by_type`; `none` when it ends without a match:
neither `*bytes` nor `*ptr` is written. -/
def by_type_loop (elf : Bytes) (type : Int) : List Elf64_Shdr → Res (Option (Int × Bytes))
  | [] => .ok none
  | sh :: rest =>
    if int32 sh.sh_type ≠ type then by_type_loop elf type rest
    else if ¬ fseek_ok sh.sh_offset then .err (-1)
    else match fread1 elf sh.sh_offset sh.sh_size with
      | none => .err (-1)
      | some data => .ok (some (int32 sh.sh_size, data))

/-- `read_section64_by_type`. -/
def read_section64_by_type (elf : Bytes) (type : Int) : Res (Option (Int × Bytes)) :=
  match read_section64_headers_all elf with
  | .err c => .err c
  | .ub => .ub
  | .ok sh_table => by_type_loop elf type sh_table

/-! ## The symbol table -/

/-- `sym64_compare`: the difference of the two 64-bit `st_value` fields,
returned as an `int`. -/
def sym64_compare (a b : Elf64_Sym) : Int :=
  int32 (((a.st_value + 18446744073709551616 - b.st_value) % 18446744073709551616 : Nat) : Int)

/-- Insertion step of the sort below. -/
def qsort_insert {α : Type} (compar : α → α → Int) (x : α) : List α → List α
  | [] => [x]
  | y :: ys => if compar x y ≤ 0 then x :: y :: ys else y :: qsort_insert compar x ys

/-- `qsort` with the comparison `compar`, as an insertion sort that keeps the
order of elements comparing equal (C leaves that order open). -/
def qsort {α : Type} (compar : α → α → Int) : List α → List α
  | [] => []
  | x :: xs => qsort_insert compar x (qsort compar xs)

def SHT_SYMTAB : Int := 2

/-- `read_sym64_tab`: the size in bytes and the entries of the first section
of type `SHT_SYMTAB`.  When there is none, `read_section64_by_type` returns 0
and `data` and `*bytes` are indeterminate: they are handed to `qsort` when
`sort` is set (`ub`), and returned with status 0 otherwise (`ok none`). -/
def read_sym64_tab (elf : Bytes) (sort : Bool) : Res (Option (Int × List Elf64_Sym)) :=
  match read_section64_by_type elf SHT_SYMTAB with
  | .err c => .err c
  | .ub => .ub
  | .ok none => if sort then .ub else .ok none
  | .ok (some (bytes, data)) =>
    let syms := (List.range (data.length / 24)).map (decode_sym data)
    if sort then
      if bytes < 0 then .ub
      else .ok (some (bytes,
        qsort sym64_compare (syms.take (bytes / 24).toNat) ++ syms.drop (bytes / 24).toNat))
    else .ok (some (bytes, syms))

/-- `get_sym64_name_from_index`: `index` has the C type `int`. -/
def get_sym64_name_from_index (elf : Bytes) (index : Int) : Res Bytes :=
  match read_sym64_tab elf false with
  | .err c => .err c
  | .ub => .ub
  | .ok none => .ub
  | .ok (some (bytes, symtab)) =>
    if index ≥ Int.tdiv bytes 24 then .err (-1)
    else if index < 0 then .ub
    else match symtab.get? index.toNat with
      | none => .ub
      | some sym => get_sym64_name elf (int32 sym.st_name)

/-! ## Code sections -/

def BPF_PROG_TYPE_KPROBE : Nat := 2
def BPF_PROG_TYPE_TRACEPOINT : Nat := 5

structure code_section where
  type : Nat
  name : Bytes
  data : Option Bytes
  data_len : Int
  rel_data : Option Bytes
  rel_data_len : Int
  prog_fd : Int
deriving DecidableEq, Repr

/-- The helpers of `utils.h`, which is not part of the sources: `deslash`,
the value of `path_filename(elfpath, true)` and that of `get_machine_kvers()`. -/
structure Ext where
  deslash : Bytes → Bytes
  fname : Bytes
  kvers : Int

/-- `_startswith(a, b)`: `strncmp(a, b, strlen(b)) == 0`. -/
def _startswith (a b : Bytes) : Bool := strncmp_eq a b b.length

/-- One turn of the loop of `read_code_sections`, for the header `sh` at index
`i`: the record built from it, if any.  The look-ahead reads `sh_table[i+1]`
under the test `i < entries`. -/
def code_section_at (ext : Ext) (elf : Bytes) (sh_table : List Elf64_Shdr) (i : Nat)
    (sh : Elf64_Shdr) : Res (Option code_section) :=
  match get_sym64_name elf (int32 sh.sh_name) with
  | .err c => .err c
  | .ub => .ub
  | .ok name =>
    if _startswith name (cstr "kprobe/") || _startswith name (cstr "tracepoint/") then
      let type := if _startswith name (cstr "kprobe/") then BPF_PROG_TYPE_KPROBE
        else BPF_PROG_TYPE_TRACEPOINT
      match read_section64_by_id elf i with
      | .err c => .err c
      | .ub => .ub
      | .ok (bytes, data) =>
        let cs : code_section :=
          { type := type, name := ext.deslash name, data := data, data_len := bytes
            rel_data := none, rel_data_len := 0, prog_fd := 0 }
        match data with
        | none => .ok (some cs)
        | some _ =>
          match sh_table.get? (i + 1) with
          | none => .ub
          | some sh1 =>
            match get_sym64_name elf (int32 sh1.sh_name) with
            | .err c => .err c
            | .ub => .ub
            | .ok name1 =>
              if (type == BPF_PROG_TYPE_KPROBE && _startswith name1 (cstr ".relkprobe/")) ||
                 (type == BPF_PROG_TYPE_TRACEPOINT && _startswith name1 (cstr ".reltracepoint/"))
              then
                match read_section64_by_id elf (i + 1) with
                | .err c => .err c
                | .ub => .ub
                | .ok (bytes1, rel) => .ok (some { cs with rel_data := rel, rel_data_len := bytes1 })
              else .ok (some cs)
    else .ok none

/-- The loop of `read_code_sections` from index `i` on; `cs_ret` is the list
built so far, new records are put in front. -/
def read_code_loop (ext : Ext) (elf : Bytes) (sh_table : List Elf64_Shdr) :
    List Elf64_Shdr → Nat → List code_section → Res (List code_section)
  | [], _, cs_ret => .ok cs_ret
  | sh :: rest, i, cs_ret =>
    match code_section_at ext elf sh_table i sh with
    | .err c => .err c
    | .ub => .ub
    | .ok none => read_code_loop ext elf sh_table rest (i + 1) cs_ret
    | .ok (some cs) => read_code_loop ext elf sh_table rest (i + 1) (cs :: cs_ret)

/-- `read_code_sections`. -/
def read_code_sections (ext : Ext) (elf : Bytes) : Res (List code_section) :=
  match read_section64_headers_all elf with
  | .err c => .err c
  | .ub => .ub
  | .ok sh_table => read_code_loop ext elf sh_table sh_table 0 []

/-! ## Map names -/

/-- First loop of `get_map_names`: the index of the first section whose name
passes `!strncmp(map_name, "maps", 4)`. -/
def find_maps_idx (elf : Bytes) : List Elf64_Shdr → Nat → Res (Option Nat)
  | [], _ => .ok none
  | sh :: rest, i =>
    match get_sym64_name elf (int32 sh.sh_name) with
    | .err c => .err c
    | .ub => .ub
    | .ok map_name =>
      if strncmp_eq map_name (cstr "maps") 4 then .ok (some i)
      else find_maps_idx elf rest (i + 1)

/-- Last loop of `get_map_names`: the names of the symbols of section
`maps_idx`, in the order of `symtab`. -/
def collect_names (elf : Bytes) (maps_idx : Nat) : List Elf64_Sym → Res (List Bytes)
  | [] => .ok []
  | sym :: rest =>
    if sym.st_shndx = maps_idx then
      match get_sym64_name elf (int32 sym.st_name) with
      | .err c => .err c
      | .ub => .ub
      | .ok name =>
        match collect_names elf maps_idx rest with
        | .err c => .err c
        | .ub => .ub
        | .ok names => .ok (name :: names)
    else collect_names elf maps_idx rest

/-- `get_map_names`: the symbol table is read with `sort` set.  `ok none` is
the return through `if (maps_idx == -1) goto cleanup`: status 0, `*n` and
`*map_names_ptr` not written. -/
def get_map_names (elf : Bytes) : Res (Option (List Bytes)) :=
  match read_sym64_tab elf true with
  | .err c => .err c
  | .ub => .ub
  | .ok none => .ub
  | .ok (some (bytes, symtab)) =>
    match read_section64_headers_all elf with
    | .err c => .err c
    | .ub => .ub
    | .ok sh_table =>
      match find_maps_idx elf sh_table 0 with
      | .err c => .err c
      | .ub => .ub
      | .ok none => .ok none
      | .ok (some maps_idx) =>
        match collect_names elf maps_idx (symtab.take (Int.tdiv bytes 24).toNat) with
        | .err c => .err c
        | .ub => .ub
        | .ok names => .ok (some names)

/-! ## The kernel and the pin namespace -/

/-- A call into the kernel, with the arguments the loader passes. -/
inductive KCall where
  | create_map (type : Nat) (name : Bytes) (key_size value_size max_entries map_flags : Nat)
  | prog_load (type : Nat) (name : Bytes) (insns : Option Bytes) (len : Int)
      (license : Option Bytes) (kvers : Int)
  | obj_pin (fd : Int) (path : Bytes)
deriving DecidableEq, Repr

/-- The state outside the process: the paths that exist in the pin namespace
and the kernel calls issued so far, oldest first. -/
structure World where
  paths : List Bytes
  calls : List KCall
deriving DecidableEq, Repr

/-- The kernel's answer to a call, given everything that happened before. -/
abbrev Kernel := World → KCall → Int

/-- Modelled from the spec: `libbpf.h` is not part of the sources.  §6:
`create map(kind, name, key_size, value_size, max_entries, flags) -> handle |
error`, an `int` that is negative on failure. -/
def bpf_create_map (k : Kernel) (w : World) (type : Nat) (name : Bytes)
    (key_size value_size max_entries map_flags : Nat) : Int × World :=
  let c := KCall.create_map type name key_size value_size max_entries map_flags
  (int32 (k w c), { w with calls := w.calls ++ [c] })

/-- Modelled from the spec: `libbpf.h` is not part of the sources.  §6:
`load program(kind, name, instructions, length, license, kernel_version) ->
handle | error`, an `int` that is not positive on failure. -/
def bpf_prog_load (k : Kernel) (w : World) (type : Nat) (name : Bytes) (insns : Option Bytes)
    (len : Int) (license : Option Bytes) (kvers : Int) : Int × World :=
  let c := KCall.prog_load type name insns len license kvers
  (int32 (k w c), { w with calls := w.calls ++ [c] })

/-- Modelled from the spec: `libbpf.h` is not part of the sources.  §6:
`pin(handle, path) -> ok | error`: 0 on success, negative on failure; a
successful pin makes `path` exist. -/
def bpf_obj_pin (k : Kernel) (w : World) (fd : Int) (path : Bytes) : Int × World :=
  let c := KCall.obj_pin fd path
  if int32 (k w c) < 0 then (int32 (k w c), { w with calls := w.calls ++ [c] })
  else (0, { paths := path :: w.paths, calls := w.calls ++ [c] })

/-- The test `access(path, F_OK) == 0`. -/
def access_ok (w : World) (path : Bytes) : Bool := decide (path ∈ w.paths)

def BPF_FS_PATH : Bytes := cstr "/sys/fs/bpf/"
def EEXIST : Int := 17
def EINVAL : Int := 22

/-! ## Creating the maps -/

structure bpf_map_def where
  type : Nat
  key_size : Nat
  value_size : Nat
  max_entries : Nat
  map_flags : Nat
  inner_map_idx : Nat
  numa_node : Nat
deriving DecidableEq, Repr

/-- The `i`-th `bpf_map_def` (28 bytes) of an array stored in `b`. -/
def decode_map_def (b : Bytes) (i : Nat) : bpf_map_def :=
  { type := le_uint b (28 * i) 4
    key_size := le_uint b (28 * i + 4) 4
    value_size := le_uint b (28 * i + 8) 4
    max_entries := le_uint b (28 * i + 12) 4
    map_flags := le_uint b (28 * i + 16) 4
    inner_map_idx := le_uint b (28 * i + 20) 4
    numa_node := le_uint b (28 * i + 24) 4 }

/-- Pin location of a map: `/sys/fs/bpf/map_<filename>_<mapname>`. -/
def map_pin_loc (fname map_name : Bytes) : Bytes :=
  BPF_FS_PATH ++ cstr "map_" ++ fname ++ cstr "_" ++ map_name

/-- The loop of `create_maps` from index `i` on; `map_fds` holds the handles
stored so far.  `md[i]` is read without a bound.  `n` is the value of `*n` when
`create_maps` is entered: the handles are stored in the block
`malloc(*n * sizeof(int))`, an array of `n` slots, and the store
`map_fds[i] = fd` is made without a bound, after the map is created and
pinned. -/
def create_maps_loop (k : Kernel) (fname : Bytes) (md : Option Bytes) (n : Nat) :
    List Bytes → Nat → List Int → World → Res (List Int) × World
  | [], _, map_fds, w => (.ok map_fds, w)
  | name :: rest, i, map_fds, w =>
    if access_ok w (map_pin_loc fname name) then (.err (-EEXIST), w)
    else match md with
      | none => (.ub, w)
      | some m =>
        if m.length < 28 * (i + 1) then (.ub, w)
        else
          let d := decode_map_def m i
          let r := bpf_create_map k w d.type name d.key_size d.value_size d.max_entries d.map_flags
          if r.1 < 0 then (.err r.1, r.2)
          else
            let p := bpf_obj_pin k r.2 r.1 (map_pin_loc fname name)
            if p.1 < 0 then (.err p.1, p.2)
            else if n ≤ i then (.ub, p.2)
            else create_maps_loop k fname md n rest (i + 1) (map_fds ++ [r.1]) p.2

/-- `create_maps`: the handles, in the order of the names of `get_map_names`.
`n` is the value of `*n` on entry, the number of slots of the array the
handles are stored in; the one caller, `load_prog`, passes 0, and a negative
value is not modelled.  When `get_map_names` returns 0 without writing
`nmaps`, the loop bound is indeterminate. -/
def create_maps (k : Kernel) (ext : Ext) (elf : Bytes) (n : Nat) (w : World) :
    Res (List Int) × World :=
  match read_section64_by_name (cstr "maps") elf with
  | .err c => (.err c, w)
  | .ub => (.ub, w)
  | .ok (_, md) =>
    match get_map_names elf with
    | .err c => (.err c, w)
    | .ub => (.ub, w)
    | .ok none => (.ub, w)
    | .ok (some map_names) => create_maps_loop k ext.fname md n map_names 0 [] w

/-! ## Relocations -/

def BPF_LD_IMM_DW : Nat := 24
def BPF_PSEUDO_MAP_FD : Nat := 1

/-- Fields of the `struct bpf_insn` at index `i` of an instruction buffer:
`code` (byte 0), `dst_reg` and `src_reg` (low and high half of byte 1), `off`
(bytes 2-3) and `imm` (bytes 4-7, signed). -/
def insn_code (insns : Bytes) (i : Nat) : Nat := le_uint insns (8 * i) 1
def insn_dst_reg (insns : Bytes) (i : Nat) : Nat := insns.getD (8 * i + 1) 0 % 16
def insn_src_reg (insns : Bytes) (i : Nat) : Nat := insns.getD (8 * i + 1) 0 / 16 % 16
def insn_off (insns : Bytes) (i : Nat) : Nat := le_uint insns (8 * i + 2) 2
def insn_imm (insns : Bytes) (i : Nat) : Int := int32 (le_uint insns (8 * i + 4) 4)

/-- `apply_relo`: `insns[insn_index]` is accessed without a bound;
`insn_index` is an `int`. -/
def apply_relo (insns : Bytes) (offset : Nat) (fd : Int) : Res Bytes :=
  let insn_index := int32 ((offset / 8 : Nat) : Int)
  if insn_index < 0 ∨ insns.length < 8 * insn_index.toNat + 8 then .ub
  else
    let p := 8 * insn_index.toNat
    if insn_code insns insn_index.toNat ≠ BPF_LD_IMM_DW then .ok insns
    else .ok (insns.take (p + 1)
      ++ [insns.getD (p + 1) 0 % 16 + 16 * BPF_PSEUDO_MAP_FD]
      ++ (insns.drop (p + 2)).take 2
      ++ le_bytes (fd % 4294967296).toNat 4
      ++ insns.drop (p + 8))

/-- The inner loop of `apply_map_relocations`: the index of the first map
name equal to `sym_name`, from index `j` on. -/
def find_map (sym_name : Bytes) : List Bytes → Nat → Option Nat
  | [], _ => none
  | name :: rest, j => if strcmp_eq sym_name name then some j else find_map sym_name rest (j + 1)

/-- One relocation entry.  `err` is the failure of the symbol-name lookup.
`map_names` is `none` when `get_map_names` returned 0 without writing its
results. -/
def relo_entry (elf : Bytes) (map_names : Option (List Bytes)) (map_fds : List Int)
    (data : Option Bytes) (rel : Elf64_Rel) : Res (Option Bytes) :=
  match get_sym64_name_from_index elf (int32 ((rel.r_info / 4294967296 : Nat) : Int)) with
  | .err c => .err c
  | .ub => .ub
  | .ok sym_name =>
    match map_names with
    | none => .ub
    | some names =>
      match find_map sym_name names 0 with
      | none => .ok data
      | some j =>
        match map_fds.get? j with
        | none => .ub
        | some fd =>
          match data with
          | none => .ub
          | some insns =>
            match apply_relo insns rel.r_offset fd with
            | .ok insns1 => .ok (some insns1)
            | .err c => .err c
            | .ub => .ub

/-- The loop over the relocation entries `is` of one record: the instruction
bytes at the end, and whether the loop was left through `goto cleanup`. -/
def relo_loop (elf : Bytes) (map_names : Option (List Bytes)) (map_fds : List Int)
    (rel_data : Option Bytes) : List Nat → Option Bytes → Res (Option Bytes × Bool)
  | [], data => .ok (data, false)
  | i :: is, data =>
    match rel_data with
    | none => .ub
    | some rel =>
      if rel.length < 16 * (i + 1) then .ub
      else match relo_entry elf map_names map_fds data (decode_rel rel i) with
        | .ub => .ub
        | .err _ => .ok (data, true)
        | .ok data1 => relo_loop elf map_names map_fds rel_data is data1

/-- `n_rel = cs->rel_data_len / sizeof(*rel)`: an unsigned division, stored in
an `int`. -/
def n_rel (cs : code_section) : Int := int32 (cs.rel_data_len % 18446744073709551616 / 16)

/-- The loop of `apply_map_relocations` over the records. -/
def relo_cs_loop (elf : Bytes) (map_names : Option (List Bytes)) (map_fds : List Int) :
    List code_section → Res (List code_section)
  | [] => .ok []
  | cs :: rest =>
    match relo_loop elf map_names map_fds cs.rel_data (List.range (n_rel cs).toNat) cs.data with
    | .ub => .ub
    | .err c => .err c
    | .ok (data, true) => .ok ({ cs with data := data } :: rest)
    | .ok (data, false) =>
      match relo_cs_loop elf map_names map_fds rest with
      | .ub => .ub
      | .err c => .err c
      | .ok rest1 => .ok ({ cs with data := data } :: rest1)

/-- `apply_map_relocations`: a `void` function, so the result is the list of
records as it leaves them (`ok`), unless the run is undefined. -/
def apply_map_relocations (elf : Bytes) (map_fds : List Int) (cs : List code_section) :
    Res (List code_section) :=
  match get_map_names elf with
  | .err _ => .ok cs
  | .ub => .ub
  | .ok map_names => relo_cs_loop elf map_names map_fds cs

/-! ## Loading the programs -/

/-- Pin location of a program: `/sys/fs/bpf/prog_<filename>_<name>`. -/
def prog_pin_loc (fname name : Bytes) : Bytes :=
  BPF_FS_PATH ++ cstr "prog_" ++ fname ++ cstr "_" ++ name

/-- The loop of `load_all_cs`.  The handle stored in the record (`prog_fd`) is
not returned: nothing reads it before `load_prog` releases the records. -/
def load_cs_loop (k : Kernel) (ext : Ext) (license : Option Bytes) :
    List code_section → World → Res Unit × World
  | [], w => (.ok (), w)
  | cs :: rest, w =>
    if cs.type = BPF_PROG_TYPE_KPROBE ∨ cs.type = BPF_PROG_TYPE_TRACEPOINT then
      if access_ok w (prog_pin_loc ext.fname cs.name) then (.err (-EEXIST), w)
      else
        let r := bpf_prog_load k w cs.type cs.name cs.data cs.data_len license ext.kvers
        if r.1 ≤ 0 then (.err (-EINVAL), r.2)
        else
          let p := bpf_obj_pin k r.2 r.1 (prog_pin_loc ext.fname cs.name)
          if p.1 < 0 then (.err p.1, p.2)
          else load_cs_loop k ext license rest p.2
    else (.err (-1), w)

/-- `load_all_cs`. -/
def load_all_cs (k : Kernel) (ext : Ext) (cs : List code_section) (license : Option Bytes)
    (w : World) : Res Unit × World :=
  if ext.kvers < 0 then (.err (-1), w)
  else load_cs_loop k ext license cs w

/-- `load_prog`: the status and the state of the kernel and pin namespace
when it returns.  `create_maps` is called with `n_maps`, which is 0. -/
def load_prog (k : Kernel) (ext : Ext) (elf : Bytes) (w : World) : Res Unit × World :=
  match read_section64_by_name (cstr "license") elf with
  | .err c => (.err c, w)
  | .ub => (.ub, w)
  | .ok (_, license) =>
    match read_code_sections ext elf with
    | .err c => (.err c, w)
    | .ub => (.ub, w)
    | .ok cs =>
      match create_maps k ext elf 0 w with
      | (.err c, w1) => (.err c, w1)
      | (.ub, w1) => (.ub, w1)
      | (.ok map_fds, w1) =>
        match apply_map_relocations elf map_fds cs with
        | .err c => (.err c, w1)
        | .ub => (.ub, w1)
        | .ok cs1 => load_all_cs k ext cs1 license w1

/-! ## Object files used as concrete inputs -/

/-- An `Elf64_Ehdr`: section table at `shoff`, `shnum` entries of 64 bytes. -/
def mk_ehdr (shoff shnum shstrndx : Nat) : Bytes :=
  [127, 69, 76, 70, 2, 1, 1, 0, 0, 0, 0, 0, 0, 0, 0, 0]
    ++ le_bytes 1 2 ++ le_bytes 247 2 ++ le_bytes 1 4 ++ le_bytes 0 8 ++ le_bytes 0 8
    ++ le_bytes shoff 8 ++ le_bytes 0 4 ++ le_bytes 64 2 ++ le_bytes 0 2 ++ le_bytes 0 2
    ++ le_bytes 64 2 ++ le_bytes shnum 2 ++ le_bytes shstrndx 2

/-- An `Elf64_Shdr` with the given name offset, type, file offset and size. -/
def mk_shdr (name type off size : Nat) : Bytes :=
  le_bytes name 4 ++ le_bytes type 4 ++ le_bytes 0 8 ++ le_bytes 0 8 ++ le_bytes off 8
    ++ le_bytes size 8 ++ le_bytes 0 4 ++ le_bytes 0 4 ++ le_bytes 0 8 ++ le_bytes 0 8

/-- An `Elf64_Sym` with the given name offset, section index and value. -/
def mk_sym (name shndx value : Nat) : Bytes :=
  le_bytes name 4 ++ [0, 0] ++ le_bytes shndx 2 ++ le_bytes value 8 ++ le_bytes 0 8

/-- An `Elf64_Rel` at `offset` against the symbol of index `sym`. -/
def mk_rel (offset sym : Nat) : Bytes :=
  le_bytes offset 8 ++ le_bytes (sym * 4294967296 + 1) 8

/-- A `bpf_map_def`. -/
def mk_map_def (type key_size value_size max_entries : Nat) : Bytes :=
  le_bytes type 4 ++ le_bytes key_size 4 ++ le_bytes value_size 4 ++ le_bytes max_entries 4
    ++ le_bytes 0 4 ++ le_bytes 0 4 ++ le_bytes 0 4

/-- Section headers for sections (name offset, type, contents) laid out one
after the other from file offset `off`. -/
def mk_shdrs : List (Nat × Nat × Bytes) → Nat → Bytes
  | [], _ => []
  | (name, type, data) :: rest, off =>
    mk_shdr name type off data.length ++ mk_shdrs rest (off + data.length)

/-- The contents of the sections, one after the other. -/
def mk_data : List (Nat × Nat × Bytes) → Bytes
  | [] => []
  | (_, _, data) :: rest => data ++ mk_data rest

/-- An object file: header, contents of the sections, section table. -/
def mk_elf (shstrndx : Nat) (secs : List (Nat × Nat × Bytes)) : Bytes :=
  mk_ehdr (64 + (mk_data secs).length) secs.length shstrndx ++ mk_data secs ++ mk_shdrs secs 64

/-- String table of the files below; offsets: 1 `.shstrtab`, 11 `maps`,
16 `.symtab`, 24 `counter`, 32 `license`, 40 `hits`, 45 `kprobe/f`,
54 `.relkprobe/f`. -/
def strtab0 : Bytes :=
  [0] ++ cstr ".shstrtab" ++ [0] ++ cstr "maps" ++ [0] ++ cstr ".symtab" ++ [0]
    ++ cstr "counter" ++ [0] ++ cstr "license" ++ [0] ++ cstr "hits" ++ [0]
    ++ cstr "kprobe/f" ++ [0] ++ cstr ".relkprobe/f" ++ [0]

/-- A file without a `license` section: the null section, `.shstrtab`, `maps`
with one definition, `.symtab` with the null symbol and `counter` in `maps`. -/
def elf_no_license : Bytes :=
  mk_elf 1
    [ (0, 0, []), (1, 3, strtab0), (11, 1, mk_map_def 1 4 8 16),
      (16, 2, mk_sym 0 0 0 ++ mk_sym 24 2 0) ]

/-- A file without a symbol table: the null section and `.shstrtab`. -/
def elf_no_symtab : Bytes :=
  mk_elf 1 [ (0, 0, []), (1, 3, strtab0) ]

/-- A file whose `license` section is empty. -/
def elf_empty_license : Bytes :=
  mk_elf 1 [ (0, 0, []), (1, 3, strtab0), (32, 1, []) ]

/-- A file whose string table does not end in a NUL: `maps` at offset 11
runs to the end of the table. -/
def elf_unterminated : Bytes :=
  mk_elf 1 [ (0, 0, []), (1, 3, [0] ++ cstr ".shstrtab" ++ [0] ++ cstr "maps") ]

/-- The helpers of `utils.h` for the runs below: `deslash` keeps the part of
the name after its last `/` (spec §8: `tracepoint/sched/sched_switch` gives
`sched_switch`), the file name is `f`, the kernel version is 1. -/
def ext0 : Ext :=
  { deslash := fun n => (n.reverse.takeWhile (fun c => c != 47)).reverse
    fname := cstr "f"
    kvers := 1 }

/-- A kernel that accepts every call and answers 3. -/
def kernel_yes : Kernel := fun _ _ => 3

/-- The empty pin namespace, no call issued. -/
def world0 : World := { paths := [], calls := [] }

/-- A file whose `maps` section holds two definitions while the symbol table
has one symbol, `counter`, in that section. -/
def elf_two_defs : Bytes :=
  mk_elf 1
    [ (0, 0, []), (1, 3, strtab0), (11, 1, mk_map_def 1 4 8 16 ++ mk_map_def 2 4 4 1),
      (16, 2, mk_sym 0 0 0 ++ mk_sym 24 2 0) ]

/-- A file with two maps whose symbols stand in the symbol table in the order
`hits` (value 28), `counter` (value 0). -/
def elf_swapped : Bytes :=
  mk_elf 1
    [ (0, 0, []), (1, 3, strtab0), (11, 1, mk_map_def 1 4 8 16 ++ mk_map_def 2 4 4 1),
      (16, 2, mk_sym 0 0 0 ++ mk_sym 40 2 28 ++ mk_sym 24 2 0) ]

/-- The symbol table of `elf_swapped`, in table order. -/
def syms_swapped : List Elf64_Sym :=
  [ { st_name := 0, st_info := 0, st_other := 0, st_shndx := 0, st_value := 0, st_size := 0 },
    { st_name := 40, st_info := 0, st_other := 0, st_shndx := 2, st_value := 28, st_size := 0 },
    { st_name := 24, st_info := 0, st_other := 0, st_shndx := 2, st_value := 0, st_size := 0 } ]

/-- The section table of `elf_swapped`. -/
def shdrs_swapped : List Elf64_Shdr :=
  (List.range 4).map (decode_shdr (mk_shdrs
    [ (0, 0, []), (1, 3, strtab0), (11, 1, mk_map_def 1 4 8 16 ++ mk_map_def 2 4 4 1),
      (16, 2, mk_sym 0 0 0 ++ mk_sym 40 2 28 ++ mk_sym 24 2 0) ] 64))

/-- Instructions of the program of `elf_full`: `r1 = map ll` (two slots)
and `exit`. -/
def insns_full : Bytes :=
  [24, 1, 0, 0, 0, 0, 0, 0, 0, 0, 0, 0, 0, 0, 0, 0, 149, 0, 0, 0, 0, 0, 0, 0]

/-- A complete object: `maps` with the map `counter`, the symbol table, a
`license` section, the program `kprobe/f` and its relocation section with one
entry, at offset 0 against symbol 1 (`counter`). -/
def elf_full : Bytes :=
  mk_elf 1
    [ (0, 0, []), (1, 3, strtab0), (11, 1, mk_map_def 1 4 8 16),
      (16, 2, mk_sym 0 0 0 ++ mk_sym 24 2 0), (32, 1, [71, 80, 76, 0]),
      (45, 1, insns_full), (54, 9, mk_rel 0 1) ]

/-- The program record `read_code_sections` builds from `elf_full`. -/
def cs_full : code_section :=
  { type := BPF_PROG_TYPE_KPROBE, name := cstr "f", data := some insns_full, data_len := 24
    rel_data := some (mk_rel 0 1), rel_data_len := 16, prog_fd := 0 }

/-- As `elf_full`, with two relocation entries at offset 0: the first against
symbol 5, which the symbol table (2 entries) does not have, the second
against symbol 1 (`counter`). -/
def elf_bad_reloc : Bytes :=
  mk_elf 1
    [ (0, 0, []), (1, 3, strtab0), (11, 1, mk_map_def 1 4 8 16),
      (16, 2, mk_sym 0 0 0 ++ mk_sym 24 2 0), (32, 1, [71, 80, 76, 0]),
      (45, 1, insns_full), (54, 9, mk_rel 0 5 ++ mk_rel 0 1) ]

/-- The program record `read_code_sections` builds from `elf_bad_reloc`. -/
def cs_bad_reloc : code_section :=
  { type := BPF_PROG_TYPE_KPROBE, name := cstr "f", data := some insns_full, data_len := 24
    rel_data := some (mk_rel 0 5 ++ mk_rel 0 1), rel_data_len := 32, prog_fd := 0 }

/-- A file with the maps `counter` and `hits` and two relocation entries at
offset 0: the first against symbol 1 (`counter`), the second against symbol 2
(`hits`). -/
def elf_two_relocs : Bytes :=
  mk_elf 1
    [ (0, 0, []), (1, 3, strtab0), (11, 1, mk_map_def 1 4 8 16 ++ mk_map_def 2 4 4 1),
      (16, 2, mk_sym 0 0 0 ++ mk_sym 24 2 0 ++ mk_sym 40 2 28), (32, 1, [71, 80, 76, 0]),
      (45, 1, insns_full), (54, 9, mk_rel 0 1 ++ mk_rel 0 2) ]

/-- The program record `read_code_sections` builds from `elf_two_relocs`. -/
def cs_two_relocs : code_section :=
  { type := BPF_PROG_TYPE_KPROBE, name := cstr "f", data := some insns_full, data_len := 24
    rel_data := some (mk_rel 0 1 ++ mk_rel 0 2), rel_data_len := 32, prog_fd := 0 }

/-- A kernel that accepts every call and answers 3 plus the number of calls
issued before. -/
def kernel_count : Kernel := fun w _ => 3 + w.calls.length

/-- A kernel that refuses every pin and answers 3 to the other calls. -/
def kernel_no_pin : Kernel := fun _ c =>
  match c with
  | .obj_pin _ _ => -1
  | _ => 3

/-! ## Predicates used in the statements -/

/-- Every relocation entry of the record `cs` can be processed: it lies in
the relocation bytes, its symbol index resolves to a name, and when that name
is one of `names` the instruction it targets lies in the instruction bytes. -/
def relocs_well_formed (elf : Bytes) (names : List Bytes) (cs : code_section) : Prop :=
  ∀ i, i < (n_rel cs).toNat → ∃ rel insns sym_name,
    cs.rel_data = some rel ∧ cs.data = some insns ∧ 16 * (i + 1) ≤ rel.length ∧
    get_sym64_name_from_index elf
      (int32 (((decode_rel rel i).r_info / 4294967296 : Nat) : Int)) = .ok sym_name ∧
    (find_map sym_name names 0 ≠ none →
      (decode_rel rel i).r_offset / 8 < 2147483648 ∧
      8 * ((decode_rel rel i).r_offset / 8) + 8 ≤ insns.length)

/-- The pairs (name, handle) of `l` were obtained from the kernel one after
the other, starting in state `w` with definition `i` of `md`: each handle is
the value `bpf_create_map` returns for that name and definition, and it is
pinned at the map's path before the next creation. -/
def created_by (k : Kernel) (fname md : Bytes) : Nat → World → List (Bytes × Int) → Prop
  | _, _, [] => True
  | i, w, (name, fd) :: rest =>
    fd = (bpf_create_map k w (decode_map_def md i).type name (decode_map_def md i).key_size
      (decode_map_def md i).value_size (decode_map_def md i).max_entries
      (decode_map_def md i).map_flags).1 ∧
    created_by k fname md (i + 1)
      (bpf_obj_pin k
        (bpf_create_map k w (decode_map_def md i).type name (decode_map_def md i).key_size
          (decode_map_def md i).value_size (decode_map_def md i).max_entries
          (decode_map_def md i).map_flags).2 fd (map_pin_loc fname name)).2 rest

/-! ## Counting kernel calls -/

def is_create_map : KCall → Bool
  | .create_map _ _ _ _ _ _ => true
  | _ => false

/-- Number of `bpf_create_map` calls issued so far. -/
def n_created (w : World) : Nat := (w.calls.filter is_create_map).length

/-! ## Further object files -/

/-- String table of the files below: `strtab0` followed by `tracepoint/t`
(offset 67), `maps2` (offset 80) and `.reltracepoint/t` (offset 86). -/
def strtab1 : Bytes :=
  strtab0 ++ cstr "tracepoint/t" ++ [0] ++ cstr "maps2" ++ [0] ++ cstr ".reltracepoint/t" ++ [0]

/-- A file of 387 bytes whose section 2, `license`, is declared at offset 64
with size 100000, and whose section 3, `maps`, is declared at offset 2^63. -/
def elf_short_section : Bytes :=
  mk_ehdr 131 4 1 ++ strtab0 ++ mk_shdr 0 0 64 0 ++ mk_shdr 1 3 64 67
    ++ mk_shdr 32 1 64 100000 ++ mk_shdr 11 1 9223372036854775808 4

/-- A file whose last section is the program `kprobe/f`. -/
def elf_prog_last : Bytes :=
  mk_elf 1 [ (0, 0, []), (1, 3, strtab0), (32, 1, [71, 80, 76, 0]), (45, 1, insns_full) ]

/-- A file with the programs `kprobe/f` (with its relocation section) and
`tracepoint/t`, the latter as the last section. -/
def elf_tracepoint_last : Bytes :=
  mk_elf 1
    [ (0, 0, []), (1, 3, strtab1), (11, 1, mk_map_def 1 4 8 16),
      (16, 2, mk_sym 0 0 0 ++ mk_sym 24 2 0), (32, 1, [71, 80, 76, 0]),
      (45, 1, insns_full), (54, 9, mk_rel 0 1), (67, 1, insns_full) ]

/-- As `elf_tracepoint_last`, followed by the relocation section of
`tracepoint/t`. -/
def elf_two_progs : Bytes :=
  mk_elf 1
    [ (0, 0, []), (1, 3, strtab1), (11, 1, mk_map_def 1 4 8 16),
      (16, 2, mk_sym 0 0 0 ++ mk_sym 24 2 0), (32, 1, [71, 80, 76, 0]),
      (45, 1, insns_full), (54, 9, mk_rel 0 1), (67, 1, insns_full), (86, 9, mk_rel 0 1) ]

/-- As `elf_full`, with the relocation entry at offset 1000, beyond the 24
instruction bytes. -/
def elf_far_reloc : Bytes :=
  mk_elf 1
    [ (0, 0, []), (1, 3, strtab0), (11, 1, mk_map_def 1 4 8 16),
      (16, 2, mk_sym 0 0 0 ++ mk_sym 24 2 0), (32, 1, [71, 80, 76, 0]),
      (45, 1, insns_full), (54, 9, mk_rel 1000 1) ]

/-- The program record `read_code_sections` builds from `elf_far_reloc`. -/
def cs_far_reloc : code_section :=
  { type := BPF_PROG_TYPE_KPROBE, name := cstr "f", data := some insns_full, data_len := 24
    rel_data := some (mk_rel 1000 1), rel_data_len := 16, prog_fd := 0 }

/-- A file with a section `maps2` (index 2) before the section `maps`
(index 3); the symbol `counter` is in `maps`, no symbol is in `maps2`. -/
def elf_maps2 : Bytes :=
  mk_elf 1
    [ (0, 0, []), (1, 3, strtab1), (80, 1, [1, 2, 3, 4]), (11, 1, mk_map_def 1 4 8 16),
      (16, 2, mk_sym 0 0 0 ++ mk_sym 24 3 0), (32, 1, [71, 80, 76, 0]) ]

/-- As `elf_maps2`, with a further symbol `hits` in the section `maps2`. -/
def elf_maps2_symbol : Bytes :=
  mk_elf 1
    [ (0, 0, []), (1, 3, strtab1), (80, 1, [1, 2, 3, 4]), (11, 1, mk_map_def 1 4 8 16),
      (16, 2, mk_sym 0 0 0 ++ mk_sym 24 3 0 ++ mk_sym 40 2 0), (32, 1, [71, 80, 76, 0]) ]

/-- A file whose map symbols are `counter` with value 2^32 and `hits` with
value 0, in this order in the symbol table. -/
def elf_big_value : Bytes :=
  mk_elf 1
    [ (0, 0, []), (1, 3, strtab0), (11, 1, mk_map_def 1 4 8 16 ++ mk_map_def 2 4 4 1),
      (16, 2, mk_sym 0 0 0 ++ mk_sym 24 2 4294967296 ++ mk_sym 40 2 0) ]

/-- As `elf_no_map_symbol`, with the relocation entry against symbol 5, which
the symbol table (1 entry) does not have. -/
def elf_unresolved_reloc : Bytes :=
  mk_elf 1
    [ (0, 0, []), (1, 3, strtab0), (11, 1, mk_map_def 1 4 8 16),
      (16, 2, mk_sym 0 0 0), (32, 1, [71, 80, 76, 0]),
      (45, 1, insns_full), (54, 9, mk_rel 0 5) ]

/-- As `elf_no_map_symbol`, without the `license` section. -/
def elf_no_license_prog : Bytes :=
  mk_elf 1
    [ (0, 0, []), (1, 3, strtab0), (11, 1, mk_map_def 1 4 8 16),
      (16, 2, mk_sym 0 0 0), (45, 1, insns_full), (54, 9, mk_rel 0 0) ]

/-- Symbols with the values 0, 2^31 and 2^32. -/
def sym_zero : Elf64_Sym :=
  { st_name := 40, st_info := 0, st_other := 0, st_shndx := 2, st_value := 0, st_size := 0 }
def sym_2_31 : Elf64_Sym :=
  { st_name := 24, st_info := 0, st_other := 0, st_shndx := 2, st_value := 2147483648, st_size := 0 }
def sym_2_32 : Elf64_Sym :=
  { st_name := 24, st_info := 0, st_other := 0, st_shndx := 2, st_value := 4294967296, st_size := 0 }

/-- The helpers of `utils.h` when `get_machine_kvers()` fails. -/
def ext_no_kvers : Ext := { ext0 with kvers := -1 }

/-- A kernel that refuses every program load and answers 3 to the other calls. -/
def kernel_no_load : Kernel := fun _ c =>
  match c with
  | .prog_load _ _ _ _ _ _ => 0
  | _ => 3

/-- Two program records, `f` and `g`. -/
def cs_f : code_section :=
  { type := BPF_PROG_TYPE_KPROBE, name := cstr "f", data := some insns_full, data_len := 24
    rel_data := none, rel_data_len := 0, prog_fd := 0 }
def cs_g : code_section :=
  { type := BPF_PROG_TYPE_TRACEPOINT, name := cstr "g", data := some insns_full, data_len := 24
    rel_data := none, rel_data_len := 0, prog_fd := 0 }

/-- A pin namespace in which the path of the program `g` exists. -/
def world_g : World := { paths := [cstr "/sys/fs/bpf/prog_f_g"], calls := [] }

/-- A pin namespace in which the path of the program `f` exists. -/
def world_f : World := { paths := [cstr "/sys/fs/bpf/prog_f_f"], calls := [] }

/-- The records of the list are loaded and pinned one after the other from
state `w`, which leads to state `wj`: each record has one of the two program
types, its pin path does not exist when it is checked, `bpf_prog_load`
returns a positive handle for it and `bpf_obj_pin` does not fail. -/
def loaded_and_pinned (k : Kernel) (ext : Ext) (license : Option Bytes) :
    List code_section → World → World → Prop
  | [], w, wj => wj = w
  | cs :: rest, w, wj =>
    (cs.type = BPF_PROG_TYPE_KPROBE ∨ cs.type = BPF_PROG_TYPE_TRACEPOINT) ∧
    prog_pin_loc ext.fname cs.name ∉ w.paths ∧
    0 < (bpf_prog_load k w cs.type cs.name cs.data cs.data_len license ext.kvers).1 ∧
    ¬ (bpf_obj_pin k (bpf_prog_load k w cs.type cs.name cs.data cs.data_len license ext.kvers).2
        (bpf_prog_load k w cs.type cs.name cs.data cs.data_len license ext.kvers).1
        (prog_pin_loc ext.fname cs.name)).1 < 0 ∧
    loaded_and_pinned k ext license rest
      (bpf_obj_pin k (bpf_prog_load k w cs.type cs.name cs.data cs.data_len license ext.kvers).2
        (bpf_prog_load k w cs.type cs.name cs.data cs.data_len license ext.kvers).1
        (prog_pin_loc ext.fname cs.name)).2 wj

/-- The kernel calls of loading and pinning the records of the list, each
with the handle it is pinned with. -/
def prog_trace (ext : Ext) (license : Option Bytes) : List (code_section × Int) → List KCall
  | [] => []
  | (cs, fd) :: rest =>
    KCall.prog_load cs.type cs.name cs.data cs.data_len license ext.kvers
      :: KCall.obj_pin fd (prog_pin_loc ext.fname cs.name) :: prog_trace ext license rest

/-- The state reached from `world_g` when the program `f` is loaded with
handle 3 and pinned. -/
def world_g_f : World :=
  { paths := [cstr "/sys/fs/bpf/prog_f_f", cstr "/sys/fs/bpf/prog_f_g"]
    calls := [KCall.prog_load 2 (cstr "f") (some insns_full) 24 none 1,
              KCall.obj_pin 3 (cstr "/sys/fs/bpf/prog_f_f")] }

/-- A pin namespace in which the path of the map `counter` exists. -/
def world_counter : World := { paths := [cstr "/sys/fs/bpf/map_f_counter"], calls := [] }

/-- The bytes of section `sh` as `read_section64_by_id` stores them: `NULL`
when the seek or the read fails. -/
def section_bytes (elf : Bytes) (sh : Elf64_Shdr) : Option Bytes :=
  if fseek_ok sh.sh_offset then fread1 elf sh.sh_offset sh.sh_size else none

/-- The program kind of a section name (spec §4.2): `kprobe/` gives the
kprobe kind, `tracepoint/` the tracepoint kind, another name none. -/
def prog_kind (name : Bytes) : Option Nat :=
  if _startswith name (cstr "kprobe/") then some BPF_PROG_TYPE_KPROBE
  else if _startswith name (cstr "tracepoint/") then some BPF_PROG_TYPE_TRACEPOINT
  else none

/-- The kind and the bytes of each program section among the headers of the
list, in the order of the list; `nm i` is the name of section `i` and the
first header of the list has index `i`. -/
def program_sections (elf : Bytes) (nm : Nat → Bytes) :
    List Elf64_Shdr → Nat → List (Nat × Option Bytes)
  | [], _ => []
  | sh :: rest, i =>
    match prog_kind (nm i) with
    | some kind => (kind, section_bytes elf sh) :: program_sections elf nm rest (i + 1)
    | none => program_sections elf nm rest (i + 1)

/-! ## Theorems -/

theorem int32_eq (x : Int) : int32 x = (x + 2147483648) % 4294967296 - 2147483648 := by
  have h1 : 0 ≤ x % 4294967296 := Int.emod_nonneg x (by decide)
  have h2 : x % 4294967296 < 4294967296 := Int.emod_lt_of_pos x (by decide)
  have h3 : (x + 2147483648) % 4294967296 - 2147483648 =
      if x % 4294967296 < 2147483648 then x % 4294967296 else x % 4294967296 - 4294967296 := by
    split <;> omega
  rw [h3]
  unfold int32
  generalize x % 4294967296 = y at h1 h2
  cases y with
  | ofNat r =>
    have h4 : (Int.ofNat r < 2147483648) ↔ r < 2147483648 := by
      rw [Int.ofNat_eq_coe]; omega
    change (if r < 2147483648 then Int.ofNat r else Int.negSucc (4294967295 - r)) = _
    by_cases hr : r < 2147483648
    · rw [if_pos hr, if_pos (h4.mpr hr)]
    · rw [if_neg hr, if_neg (fun h => hr (h4.mp h)), Int.negSucc_eq, Int.ofNat_eq_coe]
      have : r < 4294967296 := by rw [Int.ofNat_eq_coe] at h2; omega
      omega
  | negSucc n => exact absurd h1 (by rw [Int.negSucc_eq]; omega)

theorem int32_of_small (x : Int) (h0 : -2147483648 ≤ x) (h1 : x < 2147483648) : int32 x = x := by
  rw [int32_eq]; omega

theorem split8 (l : Bytes) (p : Nat) (h : p + 8 ≤ l.length) :
    ∃ A c b o1 o2 i0 i1 i2 i3 B,
      l = A ++ c :: b :: o1 :: o2 :: i0 :: i1 :: i2 :: i3 :: B ∧ A.length = p := by
  obtain ⟨A, R, rfl, hA⟩ : ∃ A R, l = A ++ R ∧ A.length = p :=
    ⟨l.take p, l.drop p, (List.take_append_drop p l).symm, by simp; omega⟩
  simp only [List.length_append] at h
  match R, h with
  | c :: b :: o1 :: o2 :: i0 :: i1 :: i2 :: i3 :: B, _ => exact ⟨A, c, b, o1, o2, i0, i1, i2, i3, B, rfl, hA⟩
  | [], h | [_], h | [_, _], h | [_, _, _], h | [_, _, _, _], h | [_, _, _, _, _], h
  | [_, _, _, _, _, _], h | [_, _, _, _, _, _, _], h => simp at h; omega

theorem getD_append_add (A B : Bytes) (k : Nat) : (A ++ B).getD (A.length + k) 0 = B.getD k 0 := by
  rw [List.getD_append_right _ _ _ _ (by omega)]; simp

theorem le_uint_le_bytes4 (x : Nat) (A B : Bytes) :
    le_uint (A ++ (le_bytes x 4 ++ B)) A.length 4 = x % 4294967296 := by
  have e1 : (A ++ (le_bytes x 4 ++ B)).getD A.length 0 = x % 256 := by
    have := getD_append_add A (le_bytes x 4 ++ B) 0; simpa [le_bytes] using this
  have e2 : (A ++ (le_bytes x 4 ++ B)).getD (A.length + 1) 0 = x / 256 % 256 := by
    have := getD_append_add A (le_bytes x 4 ++ B) 1; simpa [le_bytes] using this
  have e3 : (A ++ (le_bytes x 4 ++ B)).getD (A.length + 1 + 1) 0 = x / 256 / 256 % 256 := by
    have := getD_append_add A (le_bytes x 4 ++ B) 2; simpa [le_bytes, Nat.add_assoc] using this
  have e4 : (A ++ (le_bytes x 4 ++ B)).getD (A.length + 1 + 1 + 1) 0 = x / 256 / 256 / 256 % 256 := by
    have := getD_append_add A (le_bytes x 4 ++ B) 3; simpa [le_bytes, Nat.add_assoc] using this
  simp only [le_uint, e1, e2, e3, e4]
  omega

theorem patch_split (A B F : Bytes) (c b o1 o2 i0 i1 i2 i3 x : Nat) :
    (A ++ c :: b :: o1 :: o2 :: i0 :: i1 :: i2 :: i3 :: B).take (A.length + 1)
      ++ [x] ++ ((A ++ c :: b :: o1 :: o2 :: i0 :: i1 :: i2 :: i3 :: B).drop (A.length + 2)).take 2
      ++ F ++ (A ++ c :: b :: o1 :: o2 :: i0 :: i1 :: i2 :: i3 :: B).drop (A.length + 8)
    = A ++ c :: x :: o1 :: o2 :: (F ++ B) := by
  simp [List.take_append, List.drop_append]

theorem apply_relo_split (A B : Bytes) (c b o1 o2 i0 i1 i2 i3 : Nat) (offset : Nat) (fd : Int)
    (hA : A.length = 8 * (offset / 8)) (hidx : offset / 8 < 2147483648) :
    apply_relo (A ++ c :: b :: o1 :: o2 :: i0 :: i1 :: i2 :: i3 :: B) offset fd =
      if c % 256 = 24
      then .ok (A ++ c :: (b % 16 + 16) :: o1 :: o2 :: (le_bytes (fd % 4294967296).toNat 4 ++ B))
      else .ok (A ++ c :: b :: o1 :: o2 :: i0 :: i1 :: i2 :: i3 :: B) := by
  have hi : int32 ((offset / 8 : Nat) : Int) = ((offset / 8 : Nat) : Int) :=
    int32_of_small _ (by omega) (by omega)
  have hc : insn_code (A ++ c :: b :: o1 :: o2 :: i0 :: i1 :: i2 :: i3 :: B) (offset / 8) = c % 256 := by
    have := getD_append_add A (c :: b :: o1 :: o2 :: i0 :: i1 :: i2 :: i3 :: B) 0
    simp only [Nat.add_zero, hA] at this
    rw [insn_code, le_uint, this]
    simp [le_uint]
  have hb : (A ++ c :: b :: o1 :: o2 :: i0 :: i1 :: i2 :: i3 :: B).getD (8 * (offset / 8) + 1) 0 = b := by
    have := getD_append_add A (c :: b :: o1 :: o2 :: i0 :: i1 :: i2 :: i3 :: B) 1
    simp only [hA] at this
    rw [this]; rfl
  have hlen : ¬ (((offset / 8 : Nat) : Int) < 0 ∨
      (A ++ c :: b :: o1 :: o2 :: i0 :: i1 :: i2 :: i3 :: B).length < 8 * (offset / 8) + 8) := by
    rw [not_or]
    constructor
    · omega
    · simp only [List.length_append, List.length_cons, hA]; omega
  have hp := patch_split A B (le_bytes (fd % 4294967296).toNat 4) c b o1 o2 i0 i1 i2 i3 (b % 16 + 16 * 1)
  rw [hA] at hp
  unfold apply_relo
  simp only [hi, Int.toNat_ofNat, hc, hb, BPF_LD_IMM_DW, BPF_PSEUDO_MAP_FD]
  rw [if_neg hlen]
  by_cases h : c % 256 = 24
  · rw [if_neg (not_not.mpr h), if_pos h, hp]
  · rw [if_pos h, if_neg h]

theorem le_bytes_length (x n : Nat) : (le_bytes x n).length = n := by
  induction n generalizing x with
  | zero => rfl
  | succ n ih => simp [le_bytes, ih]

theorem apply_relo_spec (insns : Bytes) (offset : Nat) (fd : Int)
    (hidx : offset / 8 < 2147483648)
    (hin : 8 * (offset / 8) + 8 ≤ insns.length)
    (hcode : insn_code insns (offset / 8) = BPF_LD_IMM_DW) :
    ∃ out, apply_relo insns offset fd = .ok out ∧
      out.length = insns.length ∧
      insn_imm out (offset / 8) = int32 fd ∧
      insn_src_reg out (offset / 8) = BPF_PSEUDO_MAP_FD ∧
      insn_code out (offset / 8) = insn_code insns (offset / 8) ∧
      insn_dst_reg out (offset / 8) = insn_dst_reg insns (offset / 8) ∧
      insn_off out (offset / 8) = insn_off insns (offset / 8) ∧
      ∀ j, j ≠ 8 * (offset / 8) + 1 → (j < 8 * (offset / 8) + 4 ∨ 8 * (offset / 8) + 8 ≤ j) →
        out.get? j = insns.get? j := by
  obtain ⟨A, c, b, o1, o2, i0, i1, i2, i3, B, rfl, hA⟩ := split8 insns (8 * (offset / 8)) hin
  have hsplit := apply_relo_split A B c b o1 o2 i0 i1 i2 i3 offset fd hA hidx
  generalize offset / 8 = t at *
  have g0 := fun (X : Bytes) => getD_append_add A X 0
  have g1 := fun (X : Bytes) => getD_append_add A X 1
  have g2 := fun (X : Bytes) => getD_append_add A X 2
  have g3 := fun (X : Bytes) => getD_append_add A X 3
  simp only [hA, Nat.add_zero] at g0 g1 g2 g3
  have hc : c % 256 = 24 := by
    have := hcode
    rw [insn_code, le_uint, g0] at this
    simpa [le_uint, BPF_LD_IMM_DW] using this
  rw [if_pos hc] at hsplit
  refine ⟨_, hsplit, ?_, ?_, ?_, ?_, ?_, ?_, ?_⟩
  · simp [le_bytes_length]; omega
  · have e : A ++ c :: (b % 16 + 16) :: o1 :: o2 :: (le_bytes (fd % 4294967296).toNat 4 ++ B)
        = (A ++ [c, b % 16 + 16, o1, o2]) ++ (le_bytes (fd % 4294967296).toNat 4 ++ B) := by simp
    have hl : (A ++ [c, b % 16 + 16, o1, o2]).length = 8 * t + 4 := by simp [hA]
    have := le_uint_le_bytes4 (fd % 4294967296).toNat (A ++ [c, b % 16 + 16, o1, o2]) B
    rw [hl, ← e] at this
    rw [insn_imm, this]
    rw [int32_eq, int32_eq]
    omega
  · rw [insn_src_reg, g1]
    simp only [List.getD_cons_succ, List.getD_cons_zero, BPF_PSEUDO_MAP_FD]
    omega
  · simp only [insn_code, le_uint, g0, List.getD_cons_zero]
  · rw [insn_dst_reg, insn_dst_reg, g1, g1]
    simp only [List.getD_cons_succ, List.getD_cons_zero]
    omega
  · simp only [insn_off, le_uint, g2, g3, show 8 * t + 2 + 1 = 8 * t + 3 from rfl,
      List.getD_cons_succ, List.getD_cons_zero]
  · intro j hj1 hj
    by_cases hlt : j < A.length
    · rw [List.get?_eq_getElem?, List.get?_eq_getElem?, List.getElem?_append_left hlt,
        List.getElem?_append_left hlt]
    · obtain ⟨k, rfl⟩ : ∃ k, j = A.length + k := ⟨j - A.length, by omega⟩
      rw [List.get?_eq_getElem?, List.get?_eq_getElem?,
        List.getElem?_append_right (by omega), List.getElem?_append_right (by omega)]
      simp only [Nat.add_sub_cancel_left]
      have hk : k = 0 ∨ k = 2 ∨ k = 3 ∨ 8 ≤ k := by omega
      rcases hk with rfl | rfl | rfl | hk
      · rfl
      · rfl
      · rfl
      · obtain ⟨m, rfl⟩ : ∃ m, k = m + 8 := ⟨k - 8, by omega⟩
        have hF : ∃ f0 f1 f2 f3, le_bytes (fd % 4294967296).toNat 4 = [f0, f1, f2, f3] :=
          ⟨_, _, _, _, rfl⟩
        obtain ⟨f0, f1, f2, f3, hF⟩ := hF
        rw [hF]
        simp

/-- C2. When the instruction at index `offset / 8` lies in the buffer and has
opcode `BPF_LD | BPF_IMM | BPF_DW`, `apply_relo` returns a buffer of the same
length in which that instruction has immediate `fd` and source register
`BPF_PSEUDO_MAP_FD`, the same opcode, destination register and offset field,
and in which every byte other than byte 1 and bytes 4-7 of that instruction is
the byte of the input. -/
theorem apply_relo_patches_imm_and_src (insns : Bytes) (offset : Nat) (fd : Int)
    (hidx : offset / 8 < 2147483648)
    (hin : 8 * (offset / 8) + 8 ≤ insns.length)
    (hfd : -2147483648 ≤ fd ∧ fd < 2147483648)
    (hcode : insn_code insns (offset / 8) = BPF_LD_IMM_DW) :
    ∃ out, apply_relo insns offset fd = .ok out ∧
      out.length = insns.length ∧
      insn_imm out (offset / 8) = fd ∧
      insn_src_reg out (offset / 8) = BPF_PSEUDO_MAP_FD ∧
      insn_code out (offset / 8) = insn_code insns (offset / 8) ∧
      insn_dst_reg out (offset / 8) = insn_dst_reg insns (offset / 8) ∧
      insn_off out (offset / 8) = insn_off insns (offset / 8) ∧
      ∀ j, j ≠ 8 * (offset / 8) + 1 → (j < 8 * (offset / 8) + 4 ∨ 8 * (offset / 8) + 8 ≤ j) →
        out.get? j = insns.get? j := by
  obtain ⟨out, h1, h2, h3, h4⟩ := apply_relo_spec insns offset fd hidx hin hcode
  rw [int32_of_small fd hfd.1 hfd.2] at h3
  exact ⟨out, h1, h2, h3, h4⟩

set_option maxRecDepth 100000 in
/-- C1. `elf_no_license_prog` and `elf_no_license` have no section named
`license`: the license lookup returns 0 without a section, and `load_prog`
goes on.  On `elf_no_license_prog` (the program `kprobe/f`, no map symbol) it
submits the program to `bpf_prog_load` with a `NULL` license, pins it and
returns 0.  On `elf_no_license` (the map `counter`) it goes through
`create_maps`, which creates and pins the map; the store of its handle, in
the array of `n_maps = 0` slots, is outside the array. -/
theorem load_prog_without_license :
    read_section64_by_name (cstr "license") elf_no_license_prog = .ok (67, none) ∧
    load_prog kernel_yes ext0 elf_no_license_prog world0 =
      (.ok (),
        { paths := [cstr "/sys/fs/bpf/prog_f_f"]
          calls := [KCall.prog_load 2 (cstr "f") (some insns_full) 24 none 1,
                    KCall.obj_pin 3 (cstr "/sys/fs/bpf/prog_f_f")] }) ∧
    read_section64_by_name (cstr "license") elf_no_license = .ok (67, none) ∧
    load_prog kernel_yes ext0 elf_no_license world0 =
      (.ub,
        { paths := [cstr "/sys/fs/bpf/map_f_counter"]
          calls := [KCall.create_map 1 (cstr "counter") 4 8 16 0,
                    KCall.obj_pin 3 (cstr "/sys/fs/bpf/map_f_counter")] }) := by
  decide

set_option maxRecDepth 100000 in
/-- C8. With no section of the requested name, `read_section64_by_name`
returns 0 (`*ptr` not written); with no section of the requested type,
`read_section64_by_type` returns 0 (nothing written), and so does
`read_sym64_tab` on a file without a symbol table. -/
theorem lookup_not_found_returns_zero :
    read_section64_by_name (cstr "license") elf_no_symtab = .ok (67, none) ∧
    read_section64_by_type elf_no_symtab SHT_SYMTAB = .ok none ∧
    read_sym64_tab elf_no_symtab false = .ok none := by
  decide

set_option maxRecDepth 100000 in
/-- C9. In `elf_empty_license` the section of index 2 is named `license` and
has size 0; `read_section64_by_name` returns -1 for it, as `fread` of an item
of size 0 returns 0. -/
theorem read_empty_section_by_name_fails :
    (match read_section64_headers_all elf_empty_license with
      | .ok sh_table => sh_table.map (fun sh => (sh.sh_name, sh.sh_size))
      | _ => []) = [(0, 0), (1, 67), (32, 0)] ∧
    get_sym64_name elf_empty_license 32 = .ok (cstr "license") ∧
    read_section64_by_name (cstr "license") elf_empty_license = .err (-1) := by
  decide

set_option maxRecDepth 100000 in
/-- C10. The string table of `elf_no_license` has 67 bytes; the name offset
2147483648 becomes a negative `int`, passes the test `name_off >= bytes` and
the name is read before the blob.  In `elf_unterminated` the table has no NUL
at or after offset 11, and the name is read past its end. -/
theorem get_sym64_name_reads_outside_blob :
    read_section64_header_strtab elf_no_license = .ok (67, some strtab0) ∧
    get_sym64_name elf_no_license (int32 2147483648) = .ub ∧
    read_section64_header_strtab elf_unterminated =
      .ok (15, some ([0] ++ cstr ".shstrtab" ++ [0] ++ cstr "maps")) ∧
    get_sym64_name elf_unterminated 11 = .ub := by
  decide

/-- Witness of C2: one `ld_imm64` instruction pair, relocation offset 0, handle 7. -/
theorem apply_relo_patches_imm_and_src_witness :
    ∃ out, apply_relo [24, 1, 0, 0, 0, 0, 0, 0, 0, 0, 0, 0, 0, 0, 0, 0] 0 7 = .ok out ∧
      out.length = [24, 1, 0, 0, 0, 0, 0, 0, 0, 0, 0, 0, 0, 0, 0, 0].length ∧
      insn_imm out (0 / 8) = 7 ∧
      insn_src_reg out (0 / 8) = BPF_PSEUDO_MAP_FD ∧
      insn_code out (0 / 8) = insn_code [24, 1, 0, 0, 0, 0, 0, 0, 0, 0, 0, 0, 0, 0, 0, 0] (0 / 8) ∧
      insn_dst_reg out (0 / 8) = insn_dst_reg [24, 1, 0, 0, 0, 0, 0, 0, 0, 0, 0, 0, 0, 0, 0, 0] (0 / 8) ∧
      insn_off out (0 / 8) = insn_off [24, 1, 0, 0, 0, 0, 0, 0, 0, 0, 0, 0, 0, 0, 0, 0] (0 / 8) ∧
      ∀ j, j ≠ 8 * (0 / 8) + 1 → (j < 8 * (0 / 8) + 4 ∨ 8 * (0 / 8) + 8 ≤ j) →
        out.get? j = [24, 1, 0, 0, 0, 0, 0, 0, 0, 0, 0, 0, 0, 0, 0, 0].get? j :=
  apply_relo_patches_imm_and_src [24, 1, 0, 0, 0, 0, 0, 0, 0, 0, 0, 0, 0, 0, 0, 0] 0 7
    (by decide) (by decide) (by decide) (by decide)

theorem find_map_none (sym_name : Bytes) (names : List Bytes) (j : Nat)
    (h : ∀ name ∈ names, name ≠ sym_name) : find_map sym_name names j = none := by
  induction names generalizing j with
  | nil => rfl
  | cons n rest ih =>
    have hn : ¬ sym_name = n := fun e => h n (List.mem_cons_self _ _) e.symm
    simp only [find_map, strcmp_eq, beq_iff_eq, hn, if_false]
    exact ih (j + 1) (fun name hm => h name (List.mem_cons_of_mem _ hm))

/-- C4. A relocation entry whose symbol resolves to a name that is none of
the map names leaves the instruction bytes of the record as they are and
raises no error: the loop of `apply_map_relocations` goes on to the next
entry with the same bytes. -/
theorem unmatched_relocation_is_skipped (elf : Bytes) (names : List Bytes) (map_fds : List Int)
    (data : Option Bytes) (rel : Elf64_Rel) (sym_name : Bytes)
    (hres : get_sym64_name_from_index elf (int32 ((rel.r_info / 4294967296 : Nat) : Int))
      = .ok sym_name)
    (hno : ∀ name ∈ names, name ≠ sym_name) :
    relo_entry elf (some names) map_fds data rel = .ok data ∧
    ∀ (rel_data : Bytes) (i : Nat) (is : List Nat),
      16 * (i + 1) ≤ rel_data.length → decode_rel rel_data i = rel →
      relo_loop elf (some names) map_fds (some rel_data) (i :: is) data =
        relo_loop elf (some names) map_fds (some rel_data) is data := by
  have h1 : relo_entry elf (some names) map_fds data rel = .ok data := by
    simp only [relo_entry, hres, find_map_none sym_name names 0 hno]
  refine ⟨h1, ?_⟩
  intro rel_data i is hlen hdec
  simp only [relo_loop, Nat.not_lt.mpr hlen, if_false, hdec, h1]

set_option maxRecDepth 100000 in
/-- Witness of C4: in `elf_no_license` the symbol of index 0 has the empty
name, which is not the map name `counter`. -/
theorem unmatched_relocation_is_skipped_witness :
    get_sym64_name_from_index elf_no_license
      (int32 (((Elf64_Rel.mk 0 1).r_info / 4294967296 : Nat) : Int)) = .ok [] ∧
    (∀ name ∈ [cstr "counter"], name ≠ []) ∧
    (relo_entry elf_no_license (some [cstr "counter"]) [3]
        (some [24, 1, 0, 0, 0, 0, 0, 0, 0, 0, 0, 0, 0, 0, 0, 0]) (Elf64_Rel.mk 0 1)
      = .ok (some [24, 1, 0, 0, 0, 0, 0, 0, 0, 0, 0, 0, 0, 0, 0, 0]) ∧
    ∀ (rel_data : Bytes) (i : Nat) (is : List Nat),
      16 * (i + 1) ≤ rel_data.length → decode_rel rel_data i = Elf64_Rel.mk 0 1 →
      relo_loop elf_no_license (some [cstr "counter"]) [3] (some rel_data) (i :: is)
          (some [24, 1, 0, 0, 0, 0, 0, 0, 0, 0, 0, 0, 0, 0, 0, 0]) =
        relo_loop elf_no_license (some [cstr "counter"]) [3] (some rel_data) is
          (some [24, 1, 0, 0, 0, 0, 0, 0, 0, 0, 0, 0, 0, 0, 0, 0])) :=
  ⟨by decide, by decide,
    unmatched_relocation_is_skipped elf_no_license [cstr "counter"] [3]
      (some [24, 1, 0, 0, 0, 0, 0, 0, 0, 0, 0, 0, 0, 0, 0, 0]) (Elf64_Rel.mk 0 1) []
      (by decide) (by decide)⟩

theorem n_created_create (k : Kernel) (w : World) (t : Nat) (nm : Bytes) (a b c d : Nat) :
    n_created (bpf_create_map k w t nm a b c d).2 = n_created w + 1 ∧
    (bpf_create_map k w t nm a b c d).2.paths = w.paths := by
  simp [bpf_create_map, n_created, is_create_map, List.filter_append]

theorem n_created_pin (k : Kernel) (w : World) (fd : Int) (path : Bytes) :
    n_created (bpf_obj_pin k w fd path).2 = n_created w ∧
    ((bpf_obj_pin k w fd path).1 < 0 → (bpf_obj_pin k w fd path).2.paths = w.paths) ∧
    (¬ (bpf_obj_pin k w fd path).1 < 0 → (bpf_obj_pin k w fd path).2.paths = path :: w.paths) := by
  unfold bpf_obj_pin
  by_cases h : int32 (k w (KCall.obj_pin fd path)) < 0
  · simp [h, n_created, is_create_map, List.filter_append]
  · simp [h, n_created, is_create_map, List.filter_append]

theorem create_maps_loop_count (k : Kernel) (fname m : Bytes) (n : Nat) (names : List Bytes) :
    ∀ (i : Nat) (fds : List Int) (w : World), 28 * (i + names.length) ≤ m.length → i ≤ n →
    (∃ new, (create_maps_loop k fname (some m) n names i fds w).1 = .ok (fds ++ new) ∧
        new.length = names.length ∧ i + names.length ≤ n ∧
        n_created (create_maps_loop k fname (some m) n names i fds w).2
          = n_created w + names.length ∧
        (create_maps_loop k fname (some m) n names i fds w).2.paths.length
          = w.paths.length + names.length) ∨
    (∃ c j, c < 0 ∧ j < names.length ∧ i + j ≤ n ∧
        (create_maps_loop k fname (some m) n names i fds w).1 = .err c ∧
        (create_maps_loop k fname (some m) n names i fds w).2.paths.length = w.paths.length + j ∧
        n_created w + j ≤ n_created (create_maps_loop k fname (some m) n names i fds w).2 ∧
        n_created (create_maps_loop k fname (some m) n names i fds w).2 ≤ n_created w + j + 1) ∨
    (n < i + names.length ∧
        (create_maps_loop k fname (some m) n names i fds w).1 = .ub ∧
        n_created (create_maps_loop k fname (some m) n names i fds w).2
          = n_created w + (n - i) + 1 ∧
        (create_maps_loop k fname (some m) n names i fds w).2.paths.length
          = w.paths.length + (n - i) + 1) := by
  induction names with
  | nil =>
    intro i fds w _ hin
    left
    exact ⟨[], by simp [create_maps_loop], rfl, by simpa using hin, by simp [create_maps_loop],
      by simp [create_maps_loop]⟩
  | cons name rest ih =>
    intro i fds w hcap hin
    simp only [List.length_cons] at hcap ⊢
    rw [create_maps_loop]
    by_cases hacc : access_ok w (map_pin_loc fname name) = true
    · right; left
      rw [if_pos hacc]
      exact ⟨-EEXIST, 0, by decide, by omega, by omega, rfl, rfl, by simp, by simp⟩
    · rw [if_neg hacc]
      have hnl : ¬ m.length < 28 * (i + 1) := by omega
      simp only [hnl, if_false]
      generalize hd : decode_map_def m i = d
      have hc := n_created_create k w d.type name d.key_size d.value_size d.max_entries d.map_flags
      generalize bpf_create_map k w d.type name d.key_size d.value_size d.max_entries d.map_flags = r at hc
      by_cases hr : r.1 < 0
      · right; left
        rw [if_pos hr]
        exact ⟨r.1, 0, hr, by omega, by omega, rfl, by simp [hc.2], by simp [hc.1], by simp [hc.1]⟩
      · rw [if_neg hr]
        have hp := n_created_pin k r.2 r.1 (map_pin_loc fname name)
        generalize bpf_obj_pin k r.2 r.1 (map_pin_loc fname name) = p at hp
        by_cases hpf : p.1 < 0
        · right; left
          rw [if_pos hpf]
          exact ⟨p.1, 0, hpf, by omega, by omega, rfl, by simp [hp.2.1 hpf, hc.2],
            by simp [hp.1, hc.1], by simp [hp.1, hc.1]⟩
        · rw [if_neg hpf]
          have hpl : p.2.paths.length = w.paths.length + 1 := by simp [hp.2.2 hpf, hc.2]
          have hpc : n_created p.2 = n_created w + 1 := by rw [hp.1, hc.1]
          by_cases hni : n ≤ i
          · right; right
            rw [if_pos hni]
            have h0 : n - i = 0 := by omega
            exact ⟨by omega, rfl, by rw [h0]; exact hpc, by rw [h0]; exact hpl⟩
          · rw [if_neg hni]
            rcases ih (i + 1) (fds ++ [r.1]) p.2 (by omega) (by omega) with
              ⟨new, h1, h2, h2n, h3, h4⟩ | ⟨c, j, h1, h2, h2n, h3, h4, h5, h6⟩ | ⟨h1, h2, h3, h4⟩
            · left
              exact ⟨r.1 :: new, by simp [h1], by simp [h2], by omega, by omega, by omega⟩
            · right; left
              exact ⟨c, j + 1, h1, by omega, by omega, h3, by omega, by omega, by omega⟩
            · right; right
              exact ⟨by omega, h2, by omega, by omega⟩

/-- C5 (amended). `names` is the list `get_map_names` returns, of length `N`,
the `maps` section holds at least `N` definitions, and `n` is the value of
`*n` on entry, the number of slots of the handle array (`load_prog` passes 0).
`create_maps` either issues exactly `N` map creations, pins `N` paths and
returns `N` handles, which takes `N ≤ n`; or returns a negative status at the
first name whose pin path exists or whose creation or pin is refused: `j < N`
maps are then created and pinned, and at most one more creation was issued; or,
when `n < N`, stores the handle of map `n` outside the array, after `n + 1`
creations and pins: the run is undefined. -/
theorem create_maps_one_creation_per_name (k : Kernel) (ext : Ext) (elf : Bytes) (n : Nat)
    (w : World) (bytes : Int) (md : Bytes) (names : List Bytes)
    (hmd : read_section64_by_name (cstr "maps") elf = .ok (bytes, some md))
    (hn : get_map_names elf = .ok (some names))
    (hcap : 28 * names.length ≤ md.length) :
    (∃ map_fds, (create_maps k ext elf n w).1 = .ok map_fds ∧
        map_fds.length = names.length ∧ names.length ≤ n ∧
        n_created (create_maps k ext elf n w).2 = n_created w + names.length ∧
        (create_maps k ext elf n w).2.paths.length = w.paths.length + names.length) ∨
    (∃ c j, c < 0 ∧ j < names.length ∧ j ≤ n ∧
        (create_maps k ext elf n w).1 = .err c ∧
        (create_maps k ext elf n w).2.paths.length = w.paths.length + j ∧
        n_created w + j ≤ n_created (create_maps k ext elf n w).2 ∧
        n_created (create_maps k ext elf n w).2 ≤ n_created w + j + 1) ∨
    (n < names.length ∧
        (create_maps k ext elf n w).1 = .ub ∧
        n_created (create_maps k ext elf n w).2 = n_created w + n + 1 ∧
        (create_maps k ext elf n w).2.paths.length = w.paths.length + n + 1) := by
  have h := create_maps_loop_count k ext.fname md n names 0 [] w (by omega) (by omega)
  have e : create_maps k ext elf n w = create_maps_loop k ext.fname (some md) n names 0 [] w := by
    simp only [create_maps, hmd, hn]
  rw [e]
  simpa using h

set_option maxRecDepth 100000 in
/-- C5 (counterexample). `elf_two_defs` holds two definitions and one map
symbol: with an array of one slot `create_maps` issues one creation and
returns one handle.  On `elf_no_license` (one definition) with every pin
refused, `create_maps` fails after it has issued the one creation.  With the
array of 0 slots of `load_prog`, `create_maps` on `elf_no_license` creates and
pins the map and stores its handle outside the array. -/
theorem create_maps_count_counterexample :
    read_section64_by_name (cstr "maps") elf_two_defs
      = .ok (56, some (mk_map_def 1 4 8 16 ++ mk_map_def 2 4 4 1)) ∧
    get_map_names elf_two_defs = .ok (some [cstr "counter"]) ∧
    create_maps kernel_yes ext0 elf_two_defs 1 world0 =
      (.ok [3],
        { paths := [cstr "/sys/fs/bpf/map_f_counter"]
          calls := [KCall.create_map 1 (cstr "counter") 4 8 16 0,
                    KCall.obj_pin 3 (cstr "/sys/fs/bpf/map_f_counter")] }) ∧
    read_section64_by_name (cstr "maps") elf_no_license = .ok (28, some (mk_map_def 1 4 8 16)) ∧
    create_maps kernel_no_pin ext0 elf_no_license 1 world0 =
      (.err (-1),
        { paths := []
          calls := [KCall.create_map 1 (cstr "counter") 4 8 16 0,
                    KCall.obj_pin 3 (cstr "/sys/fs/bpf/map_f_counter")] }) ∧
    create_maps kernel_yes ext0 elf_no_license 0 world0 =
      (.ub,
        { paths := [cstr "/sys/fs/bpf/map_f_counter"]
          calls := [KCall.create_map 1 (cstr "counter") 4 8 16 0,
                    KCall.obj_pin 3 (cstr "/sys/fs/bpf/map_f_counter")] }) := by
  decide

set_option maxRecDepth 100000 in
/-- Witness of C5 (amended) on `elf_two_defs`, with an array of one slot. -/
theorem create_maps_one_creation_per_name_witness :
    read_section64_by_name (cstr "maps") elf_two_defs
      = .ok (56, some (mk_map_def 1 4 8 16 ++ mk_map_def 2 4 4 1)) ∧
    get_map_names elf_two_defs = .ok (some [cstr "counter"]) ∧
    28 * [cstr "counter"].length ≤ (mk_map_def 1 4 8 16 ++ mk_map_def 2 4 4 1).length ∧
    ((∃ map_fds, (create_maps kernel_yes ext0 elf_two_defs 1 world0).1 = .ok map_fds ∧
        map_fds.length = [cstr "counter"].length ∧ [cstr "counter"].length ≤ 1 ∧
        n_created (create_maps kernel_yes ext0 elf_two_defs 1 world0).2
          = n_created world0 + [cstr "counter"].length ∧
        (create_maps kernel_yes ext0 elf_two_defs 1 world0).2.paths.length
          = world0.paths.length + [cstr "counter"].length) ∨
    (∃ c j, c < 0 ∧ j < [cstr "counter"].length ∧ j ≤ 1 ∧
        (create_maps kernel_yes ext0 elf_two_defs 1 world0).1 = .err c ∧
        (create_maps kernel_yes ext0 elf_two_defs 1 world0).2.paths.length
          = world0.paths.length + j ∧
        n_created world0 + j ≤ n_created (create_maps kernel_yes ext0 elf_two_defs 1 world0).2 ∧
        n_created (create_maps kernel_yes ext0 elf_two_defs 1 world0).2
          ≤ n_created world0 + j + 1) ∨
    (1 < [cstr "counter"].length ∧
        (create_maps kernel_yes ext0 elf_two_defs 1 world0).1 = .ub ∧
        n_created (create_maps kernel_yes ext0 elf_two_defs 1 world0).2
          = n_created world0 + 1 + 1 ∧
        (create_maps kernel_yes ext0 elf_two_defs 1 world0).2.paths.length
          = world0.paths.length + 1 + 1)) :=
  ⟨by decide, by decide, by decide,
    create_maps_one_creation_per_name kernel_yes ext0 elf_two_defs 1 world0 56
      (mk_map_def 1 4 8 16 ++ mk_map_def 2 4 4 1) [cstr "counter"]
      (by decide) (by decide) (by decide)⟩


theorem qsort_insert_perm {α : Type} (compar : α → α → Int) (x : α) (l : List α) :
    (qsort_insert compar x l).Perm (x :: l) := by
  induction l with
  | nil => exact List.Perm.refl _
  | cons y ys ih =>
    rw [qsort_insert]
    split
    · exact List.Perm.refl _
    · exact (List.Perm.cons y ih).trans (List.Perm.swap x y ys)

theorem qsort_perm {α : Type} (compar : α → α → Int) (l : List α) : (qsort compar l).Perm l := by
  induction l with
  | nil => exact List.Perm.refl _
  | cons x xs ih =>
    rw [qsort]
    exact (qsort_insert_perm compar x _).trans (List.Perm.cons x ih)

theorem collect_names_eq (elf : Bytes) (idx : Nat) (nm : Elf64_Sym → Bytes) (l : List Elf64_Sym)
    (h : ∀ s ∈ l, s.st_shndx = idx → get_sym64_name elf (int32 s.st_name) = .ok (nm s)) :
    collect_names elf idx l = .ok ((l.filter (fun s => decide (s.st_shndx = idx))).map nm) := by
  induction l with
  | nil => rfl
  | cons s rest ih =>
    have ih1 := ih (fun t ht => h t (List.mem_cons_of_mem _ ht))
    rw [collect_names]
    by_cases hs : s.st_shndx = idx
    · rw [if_pos hs, h s (List.mem_cons_self _ _) hs]
      simp only [ih1, List.filter_cons, hs, decide_True, if_true, List.map_cons]
    · rw [if_neg hs, ih1]
      simp only [List.filter_cons, hs, decide_False, Bool.false_eq_true, if_false]

theorem read_sym64_tab_sorted (elf : Bytes) (bytes : Int) (raw : List Elf64_Sym)
    (hraw : read_sym64_tab elf false = .ok (some (bytes, raw))) (hb : 0 ≤ bytes) :
    read_sym64_tab elf true = .ok (some (bytes,
      qsort sym64_compare (raw.take (bytes / 24).toNat) ++ raw.drop (bytes / 24).toNat)) := by
  unfold read_sym64_tab at hraw ⊢
  cases hT : read_section64_by_type elf SHT_SYMTAB with
  | err c => rw [hT] at hraw; simp at hraw
  | ub => rw [hT] at hraw; simp at hraw
  | ok o =>
    rw [hT] at hraw
    cases o with
    | none => simp at hraw
    | some p =>
      obtain ⟨b, data⟩ := p
      simp only [Bool.false_eq_true, if_false, Res.ok.injEq, Option.some.injEq, Prod.mk.injEq] at hraw
      obtain ⟨rfl, rfl⟩ := hraw
      simp only [if_true, Int.not_lt.mpr hb, if_false]

theorem take_qsort_prefix (raw : List Elf64_Sym) (n : Nat) :
    (qsort sym64_compare (raw.take n) ++ raw.drop n).take n = qsort sym64_compare (raw.take n) := by
  have hl : (qsort sym64_compare (raw.take n)).length = (raw.take n).length :=
    (qsort_perm _ _).length_eq
  by_cases h : n ≤ raw.length
  · have : (qsort sym64_compare (raw.take n)).length = n := by rw [hl, List.length_take]; omega
    exact List.take_left' this
  · rw [List.drop_eq_nil_of_le (by omega), List.append_nil]
    exact List.take_of_length_le (by rw [hl, List.length_take]; omega)

theorem get_map_names_eq (elf : Bytes) (bytes : Int) (raw : List Elf64_Sym)
    (sh_table : List Elf64_Shdr) (maps_idx : Nat) (nm : Elf64_Sym → Bytes)
    (hraw : read_sym64_tab elf false = .ok (some (bytes, raw)))
    (hb : 0 ≤ bytes)
    (hsh : read_section64_headers_all elf = .ok sh_table)
    (hidx : find_maps_idx elf sh_table 0 = .ok (some maps_idx))
    (hnm : ∀ s ∈ raw.take (bytes / 24).toNat, s.st_shndx = maps_idx →
      get_sym64_name elf (int32 s.st_name) = .ok (nm s)) :
    get_map_names elf = .ok (some
      (((qsort sym64_compare (raw.take (bytes / 24).toNat)).filter
        (fun s => decide (s.st_shndx = maps_idx))).map nm)) := by
  have hd : (Int.tdiv bytes 24).toNat = (bytes / 24).toNat := by
    rw [Int.tdiv_eq_ediv hb (by decide)]
  have hc := collect_names_eq elf maps_idx nm (qsort sym64_compare (raw.take (bytes / 24).toNat))
    (fun s hs => hnm s ((qsort_perm _ _).mem_iff.mp hs))
  simp only [get_map_names, read_sym64_tab_sorted elf bytes raw hraw hb, hsh, hidx, hd,
    take_qsort_prefix, hc]

/-- C6 (amended). The list of `get_map_names` is the list of the names of
the symbols whose section index is the one the first loop finds for `maps`,
in the order of the table sorted by `qsort` with `sym64_compare`: `raw` is the
table as read without sorting, `nm` gives the names of its map symbols. -/
theorem get_map_names_in_sorted_order (elf : Bytes) (bytes : Int) (raw : List Elf64_Sym)
    (sh_table : List Elf64_Shdr) (maps_idx : Nat) (nm : Elf64_Sym → Bytes)
    (hraw : read_sym64_tab elf false = .ok (some (bytes, raw)))
    (hb : 0 ≤ bytes)
    (hsh : read_section64_headers_all elf = .ok sh_table)
    (hidx : find_maps_idx elf sh_table 0 = .ok (some maps_idx))
    (hnm : ∀ s ∈ raw.take (bytes / 24).toNat, s.st_shndx = maps_idx →
      get_sym64_name elf (int32 s.st_name) = .ok (nm s)) :
    get_map_names elf = .ok (some
      (((qsort sym64_compare (raw.take (bytes / 24).toNat)).filter
        (fun s => decide (s.st_shndx = maps_idx))).map nm)) :=
  get_map_names_eq elf bytes raw sh_table maps_idx nm hraw hb hsh hidx hnm

set_option maxRecDepth 100000 in
/-- C6 (counterexample). In `elf_swapped` the map symbols stand in the table
in the order `hits`, `counter`; `get_map_names` returns `counter`, `hits`. -/
theorem get_map_names_not_table_order :
    read_sym64_tab elf_swapped false = .ok (some (72, syms_swapped)) ∧
    collect_names elf_swapped 2 syms_swapped = .ok [cstr "hits", cstr "counter"] ∧
    get_map_names elf_swapped = .ok (some [cstr "counter", cstr "hits"]) := by
  decide

set_option maxRecDepth 100000 in
/-- Witness of C6 (amended) on `elf_swapped`. -/
theorem get_map_names_in_sorted_order_witness :
    read_sym64_tab elf_swapped false = .ok (some (72, syms_swapped)) ∧
    (0 : Int) ≤ 72 ∧
    read_section64_headers_all elf_swapped = .ok shdrs_swapped ∧
    find_maps_idx elf_swapped shdrs_swapped 0 = .ok (some 2) ∧
    (∀ s ∈ syms_swapped.take ((72 : Int) / 24).toNat, s.st_shndx = 2 →
      get_sym64_name elf_swapped (int32 s.st_name)
        = .ok (if s.st_name = 40 then cstr "hits" else cstr "counter")) ∧
    get_map_names elf_swapped = .ok (some
      (((qsort sym64_compare (syms_swapped.take ((72 : Int) / 24).toNat)).filter
        (fun s => decide (s.st_shndx = 2))).map
          (fun s => if s.st_name = 40 then cstr "hits" else cstr "counter"))) :=
  ⟨by decide, by decide, by decide, by decide, by decide,
    get_map_names_in_sorted_order elf_swapped 72 syms_swapped shdrs_swapped 2
      (fun s => if s.st_name = 40 then cstr "hits" else cstr "counter")
      (by decide) (by decide) (by decide) (by decide) (by decide)⟩

theorem create_paths (k : Kernel) (w : World) (t : Nat) (nm : Bytes) (a b c d : Nat) :
    (bpf_create_map k w t nm a b c d).2.paths = w.paths := rfl

theorem prog_load_paths (k : Kernel) (w : World) (t : Nat) (nm : Bytes) (i : Option Bytes)
    (l : Int) (lic : Option Bytes) (kv : Int) :
    (bpf_prog_load k w t nm i l lic kv).2.paths = w.paths := rfl

theorem pin_paths (k : Kernel) (w : World) (fd : Int) (path : Bytes)
    (h : ¬ (bpf_obj_pin k w fd path).1 < 0) :
    (bpf_obj_pin k w fd path).2.paths = path :: w.paths := by
  unfold bpf_obj_pin at h ⊢
  by_cases hk : int32 (k w (KCall.obj_pin fd path)) < 0
  · rw [if_pos hk] at h; exact absurd hk h
  · rw [if_neg hk]

theorem create_maps_ok_inv (k : Kernel) (ext : Ext) (elf : Bytes) (n : Nat) (w wm : World)
    (fds : List Int) (h : create_maps k ext elf n w = (.ok fds, wm)) :
    ∃ b md names, read_section64_by_name (cstr "maps") elf = .ok (b, md) ∧
      get_map_names elf = .ok (some names) ∧
      create_maps_loop k ext.fname md n names 0 [] w = (.ok fds, wm) := by
  unfold create_maps at h
  cases hM : read_section64_by_name (cstr "maps") elf with
  | err c => rw [hM] at h; simp at h
  | ub => rw [hM] at h; simp at h
  | ok p =>
    obtain ⟨b, md⟩ := p
    rw [hM] at h
    cases hN : get_map_names elf with
    | err c => rw [hN] at h; simp at h
    | ub => rw [hN] at h; simp at h
    | ok o =>
      rw [hN] at h
      cases o with
      | none => simp at h
      | some names => exact ⟨b, md, names, rfl, rfl, h⟩

theorem le_uint_congr (a b : Bytes) (n : Nat) :
    ∀ off, (∀ j, off ≤ j → j < off + n → a.getD j 0 = b.getD j 0) →
      le_uint a off n = le_uint b off n := by
  induction n with
  | zero => intro off _; rfl
  | succ n ih =>
    intro off h
    rw [le_uint, le_uint, h off (Nat.le_refl _) (by omega),
      ih (off + 1) (fun j h1 h2 => h j (by omega) (by omega))]

theorem getD_of_get? (a b : Bytes) (j : Nat) (h : a.get? j = b.get? j) :
    a.getD j 0 = b.getD j 0 := by
  rw [List.getD_eq_getElem?_getD, List.getD_eq_getElem?_getD, ← List.get?_eq_getElem?,
    ← List.get?_eq_getElem?, h]

theorem apply_relo_not_ld (insns : Bytes) (offset : Nat) (fd : Int)
    (hidx : offset / 8 < 2147483648) (hin : 8 * (offset / 8) + 8 ≤ insns.length)
    (hcode : insn_code insns (offset / 8) ≠ BPF_LD_IMM_DW) :
    apply_relo insns offset fd = .ok insns := by
  have hi : int32 ((offset / 8 : Nat) : Int) = ((offset / 8 : Nat) : Int) :=
    int32_of_small _ (by omega) (by omega)
  have hlen : ¬ (((offset / 8 : Nat) : Int) < 0 ∨ insns.length < 8 * (offset / 8) + 8) := by
    rw [not_or]
    exact ⟨by omega, by omega⟩
  unfold apply_relo
  simp only [hi, Int.toNat_ofNat]
  rw [if_neg hlen, if_pos hcode]

theorem apply_relo_frame (insns : Bytes) (offset : Nat) (fd : Int)
    (hidx : offset / 8 < 2147483648) (hin : 8 * (offset / 8) + 8 ≤ insns.length) :
    ∃ out, apply_relo insns offset fd = .ok out ∧ out.length = insns.length ∧
      (∀ t, insn_code out t = insn_code insns t) ∧
      (∀ t, t ≠ offset / 8 → insn_imm out t = insn_imm insns t) ∧
      (insn_code insns (offset / 8) = BPF_LD_IMM_DW → insn_imm out (offset / 8) = int32 fd) := by
  by_cases hcode : insn_code insns (offset / 8) = BPF_LD_IMM_DW
  · obtain ⟨out, h1, h2, h3, _, _, _, _, h8⟩ := apply_relo_spec insns offset fd hidx hin hcode
    refine ⟨out, h1, h2, ?_, ?_, fun _ => h3⟩
    · intro t
      unfold insn_code
      apply le_uint_congr
      intro j hj1 hj2
      apply getD_of_get?
      apply h8 j (by omega)
      rcases Nat.lt_or_ge (offset / 8) t with h | h
      · right; omega
      · left; omega
    · intro t ht
      have e : le_uint out (8 * t + 4) 4 = le_uint insns (8 * t + 4) 4 := by
        apply le_uint_congr
        intro j hj1 hj2
        apply getD_of_get?
        apply h8 j (by omega)
        rcases Nat.lt_or_ge (offset / 8) t with h | h
        · right; omega
        · left; omega
      rw [insn_imm, insn_imm, e]
  · exact ⟨insns, apply_relo_not_ld insns offset fd hidx hin hcode, rfl, fun _ => rfl,
      fun _ _ => rfl, fun h => absurd h hcode⟩

theorem find_map_some (sym_name : Bytes) (names : List Bytes) :
    ∀ (j0 j : Nat), find_map sym_name names j0 = some j →
      j0 ≤ j ∧ names.get? (j - j0) = some sym_name ∧
      ∀ j1, j1 < j - j0 → names.get? j1 ≠ some sym_name := by
  induction names with
  | nil => intro j0 j h; simp [find_map] at h
  | cons n rest ih =>
    intro j0 j h
    rw [find_map] at h
    by_cases hn : strcmp_eq sym_name n = true
    · rw [if_pos hn] at h
      simp only [Option.some.injEq] at h
      subst h
      have e : sym_name = n := by simpa [strcmp_eq] using hn
      refine ⟨Nat.le_refl _, by simp [e], ?_⟩
      intro j1 hj1
      omega
    · rw [if_neg hn] at h
      obtain ⟨h1, h2, h3⟩ := ih (j0 + 1) j h
      have e : ¬ sym_name = n := by simpa [strcmp_eq] using hn
      refine ⟨by omega, ?_, ?_⟩
      · have : j - j0 = (j - (j0 + 1)) + 1 := by omega
        rw [this]
        simpa using h2
      · intro j1 hj1
        cases j1 with
        | zero =>
          simp only [List.get?_cons_zero, ne_eq, Option.some.injEq]
          exact fun e1 => e e1.symm
        | succ j2 =>
          simp only [List.get?_cons_succ]
          exact h3 j2 (by omega)

theorem get?_some_lt {α : Type} (l : List α) (j : Nat) (a : α) (h : l.get? j = some a) :
    j < l.length := by
  by_contra hc
  rw [List.get?_eq_none.mpr (by omega)] at h
  exact absurd h (by simp)

theorem relo_entry_frame (elf : Bytes) (names : List Bytes) (fds : List Int) (insns : Bytes)
    (rel : Elf64_Rel) (sym_name : Bytes)
    (hres : get_sym64_name_from_index elf (int32 ((rel.r_info / 4294967296 : Nat) : Int))
      = .ok sym_name)
    (hlen : fds.length = names.length)
    (hfine : find_map sym_name names 0 ≠ none →
      rel.r_offset / 8 < 2147483648 ∧ 8 * (rel.r_offset / 8) + 8 ≤ insns.length) :
    ∃ out, relo_entry elf (some names) fds (some insns) rel = .ok (some out) ∧
      out.length = insns.length ∧
      (∀ t, insn_code out t = insn_code insns t) ∧
      (∀ t, (find_map sym_name names 0 = none ∨ t ≠ rel.r_offset / 8) →
        insn_imm out t = insn_imm insns t) ∧
      (∀ j fd, find_map sym_name names 0 = some j → fds.get? j = some fd →
        insn_code insns (rel.r_offset / 8) = BPF_LD_IMM_DW →
        insn_imm out (rel.r_offset / 8) = int32 fd) := by
  cases hf : find_map sym_name names 0 with
  | none =>
    refine ⟨insns, ?_, rfl, fun _ => rfl, fun _ _ => rfl, ?_⟩
    · simp only [relo_entry, hres, hf]
    · intro j fd h; simp at h
  | some j =>
    obtain ⟨hidx, hin⟩ := hfine (by rw [hf]; simp)
    obtain ⟨_, hj, _⟩ := find_map_some sym_name names 0 j hf
    have hjl : j < fds.length := by
      rw [hlen]; exact get?_some_lt names j sym_name (by simpa using hj)
    obtain ⟨fd, hfd⟩ : ∃ fd, fds.get? j = some fd := ⟨fds.get ⟨j, hjl⟩, List.get?_eq_get hjl⟩
    obtain ⟨out, h1, h2, h3, h4, h5⟩ := apply_relo_frame insns rel.r_offset fd hidx hin
    refine ⟨out, ?_, h2, h3, ?_, ?_⟩
    · simp only [relo_entry, hres, hf, hfd]
      rw [h1]
    · intro t ht
      rcases ht with ht | ht
      · simp at ht
      · exact h4 t ht
    · intro j1 fd1 hj1 hfd1 hcode
      simp only [Option.some.injEq] at hj1
      subst hj1
      rw [hfd] at hfd1
      simp only [Option.some.injEq] at hfd1
      subst hfd1
      exact h5 hcode

theorem relo_loop_frame (elf : Bytes) (names : List Bytes) (fds : List Int) (relb : Bytes)
    (hlen : fds.length = names.length) :
    ∀ (is : List Nat) (insns : Bytes),
      (∀ i ∈ is, 16 * (i + 1) ≤ relb.length ∧ ∃ s,
        get_sym64_name_from_index elf
          (int32 (((decode_rel relb i).r_info / 4294967296 : Nat) : Int)) = .ok s ∧
        (find_map s names 0 ≠ none → (decode_rel relb i).r_offset / 8 < 2147483648 ∧
          8 * ((decode_rel relb i).r_offset / 8) + 8 ≤ insns.length)) →
      ∃ out, relo_loop elf (some names) fds (some relb) is (some insns) = .ok (some out, false) ∧
        out.length = insns.length ∧
        (∀ t, insn_code out t = insn_code insns t) ∧
        (∀ t, (∀ i ∈ is, ∀ s, get_sym64_name_from_index elf
            (int32 (((decode_rel relb i).r_info / 4294967296 : Nat) : Int)) = .ok s →
            find_map s names 0 ≠ none → (decode_rel relb i).r_offset / 8 ≠ t) →
          insn_imm out t = insn_imm insns t) := by
  intro is
  induction is with
  | nil =>
    intro insns _
    exact ⟨insns, rfl, rfl, fun _ => rfl, fun _ _ => rfl⟩
  | cons i rest ih =>
    intro insns h
    obtain ⟨hi, s, hs, hfine⟩ := h i (List.mem_cons_self _ _)
    obtain ⟨out1, e1, l1, c1, m1, _⟩ :=
      relo_entry_frame elf names fds insns (decode_rel relb i) s hs hlen hfine
    obtain ⟨out, e2, l2, c2, m2⟩ := ih out1 (by
      intro i1 hi1
      obtain ⟨a, s1, b, c⟩ := h i1 (List.mem_cons_of_mem _ hi1)
      exact ⟨a, s1, b, by rw [l1]; exact c⟩)
    refine ⟨out, ?_, by rw [l2, l1], fun t => by rw [c2, c1], ?_⟩
    · rw [relo_loop]
      simp only [Nat.not_lt.mpr hi, if_false, e1]
      exact e2
    · intro t ht
      rw [m2 t (fun i1 hi1 => ht i1 (List.mem_cons_of_mem _ hi1))]
      apply m1 t
      by_cases hf : find_map s names 0 = none
      · exact Or.inl hf
      · exact Or.inr (fun e => ht i (List.mem_cons_self _ _) s hs hf e.symm)

theorem relo_loop_append (elf : Bytes) (names : Option (List Bytes)) (fds : List Int)
    (rel_data : Option Bytes) (post : List Nat) :
    ∀ (pre : List Nat) (d d1 : Option Bytes),
      relo_loop elf names fds rel_data pre d = .ok (d1, false) →
      relo_loop elf names fds rel_data (pre ++ post) d = relo_loop elf names fds rel_data post d1 := by
  intro pre
  induction pre with
  | nil =>
    intro d d1 h
    simp only [relo_loop, Res.ok.injEq, Prod.mk.injEq, and_true] at h
    rw [h]; rfl
  | cons i rest ih =>
    intro d d1 h
    cases rel_data with
    | none => simp [relo_loop] at h
    | some rel =>
      rw [List.cons_append, relo_loop]
      rw [relo_loop] at h
      by_cases hl : rel.length < 16 * (i + 1)
      · rw [if_pos hl] at h; simp at h
      · rw [if_neg hl] at h ⊢
        cases he : relo_entry elf names fds d (decode_rel rel i) with
        | ub => rw [he] at h; simp at h
        | err c => rw [he] at h; simp at h
        | ok d2 =>
          rw [he] at h
          simp only at h ⊢
          exact ih d2 d1 h

theorem range_split (n i : Nat) (h : i < n) :
    ∃ post, List.range n = List.range i ++ i :: post ∧ ∀ i1 ∈ post, i < i1 ∧ i1 < n := by
  induction n with
  | zero => omega
  | succ n ih =>
    rw [List.range_succ]
    by_cases hi : i = n
    · subst hi
      exact ⟨[], rfl, fun _ hm => absurd hm (List.not_mem_nil _)⟩
    · obtain ⟨post, e, hp⟩ := ih (by omega)
      refine ⟨post ++ [n], by rw [e]; simp, ?_⟩
      intro i1 hi1
      rcases List.mem_append.mp hi1 with h1 | h1
      · have := hp i1 h1; omega
      · simp only [List.mem_singleton] at h1; omega

theorem relo_loop_effect (elf : Bytes) (names : List Bytes) (fds : List Int) (relb : Bytes)
    (hlen : fds.length = names.length) (pre post : List Nat) (i : Nat) (insns : Bytes)
    (s : Bytes) (j : Nat) (fd : Int)
    (hall : ∀ i1 ∈ pre ++ i :: post, 16 * (i1 + 1) ≤ relb.length ∧ ∃ s1,
        get_sym64_name_from_index elf
          (int32 (((decode_rel relb i1).r_info / 4294967296 : Nat) : Int)) = .ok s1 ∧
        (find_map s1 names 0 ≠ none → (decode_rel relb i1).r_offset / 8 < 2147483648 ∧
          8 * ((decode_rel relb i1).r_offset / 8) + 8 ≤ insns.length))
    (hs : get_sym64_name_from_index elf
      (int32 (((decode_rel relb i).r_info / 4294967296 : Nat) : Int)) = .ok s)
    (hj : find_map s names 0 = some j) (hfd : fds.get? j = some fd)
    (hcode : insn_code insns ((decode_rel relb i).r_offset / 8) = BPF_LD_IMM_DW)
    (hpost : ∀ i1 ∈ post, ∀ s1, get_sym64_name_from_index elf
        (int32 (((decode_rel relb i1).r_info / 4294967296 : Nat) : Int)) = .ok s1 →
      find_map s1 names 0 ≠ none →
      (decode_rel relb i1).r_offset / 8 ≠ (decode_rel relb i).r_offset / 8) :
    ∃ out, relo_loop elf (some names) fds (some relb) (pre ++ i :: post) (some insns)
        = .ok (some out, false) ∧
      out.length = insns.length ∧
      insn_imm out ((decode_rel relb i).r_offset / 8) = int32 fd := by
  obtain ⟨out1, e1, l1, c1, _⟩ := relo_loop_frame elf names fds relb hlen pre insns
    (fun i1 h1 => hall i1 (List.mem_append_left _ h1))
  obtain ⟨hi, s1, hs1, hfine⟩ := hall i (List.mem_append_right _ (List.mem_cons_self _ _))
  rw [hs] at hs1
  simp only [Res.ok.injEq] at hs1
  subst hs1
  obtain ⟨out2, e2, l2, c2, _, m2⟩ :=
    relo_entry_frame elf names fds out1 (decode_rel relb i) s hs hlen (by rw [l1]; exact hfine)
  obtain ⟨out, e3, l3, _, m3⟩ := relo_loop_frame elf names fds relb hlen post out2 (by
    intro i1 h1
    obtain ⟨a, s1, b, c⟩ := hall i1 (List.mem_append_right _ (List.mem_cons_of_mem _ h1))
    exact ⟨a, s1, b, by rw [l2, l1]; exact c⟩)
  refine ⟨out, ?_, by rw [l3, l2, l1], ?_⟩
  · rw [relo_loop_append elf (some names) fds (some relb) (i :: post) pre (some insns) (some out1) e1,
      relo_loop]
    simp only [Nat.not_lt.mpr hi, if_false, e2]
    exact e3
  · rw [m3 _ hpost]
    exact m2 j fd hj hfd (by rw [c1]; exact hcode)

theorem relo_record_completes (elf : Bytes) (names : List Bytes) (fds : List Int)
    (hlen : fds.length = names.length) (cs : code_section)
    (hwf : relocs_well_formed elf names cs) :
    ∃ d, relo_loop elf (some names) fds cs.rel_data (List.range (n_rel cs).toNat) cs.data
      = .ok (d, false) := by
  by_cases hn : (n_rel cs).toNat = 0
  · rw [hn]
    exact ⟨cs.data, rfl⟩
  · obtain ⟨rel, insns, _, hrel, hdata, _⟩ := hwf 0 (by omega)
    obtain ⟨out, e, _⟩ := relo_loop_frame elf names fds rel hlen (List.range (n_rel cs).toNat) insns
      (by
        intro i hi
        obtain ⟨rel1, insns1, s, h1, h2, h3, h4, h5⟩ := hwf i (List.mem_range.mp hi)
        rw [hrel] at h1
        rw [hdata] at h2
        simp only [Option.some.injEq] at h1 h2
        subst h1 h2
        exact ⟨h3, s, h4, h5⟩)
    exact ⟨some out, by rw [hrel, hdata]; exact e⟩

theorem relo_cs_loop_all (elf : Bytes) (names : List Bytes) (fds : List Int) :
    ∀ (l : List code_section),
      (∀ c ∈ l, ∃ d, relo_loop elf (some names) fds c.rel_data (List.range (n_rel c).toNat)
        c.data = .ok (d, false)) →
      ∃ l1, relo_cs_loop elf (some names) fds l = .ok l1 ∧
        ∀ p c, l.get? p = some c → ∃ d,
          relo_loop elf (some names) fds c.rel_data (List.range (n_rel c).toNat) c.data
            = .ok (d, false) ∧
          l1.get? p = some { c with data := d } := by
  intro l
  induction l with
  | nil =>
    intro _
    exact ⟨[], rfl, fun p c h => by simp at h⟩
  | cons c0 rest ih =>
    intro h
    obtain ⟨d0, hd0⟩ := h c0 (List.mem_cons_self _ _)
    obtain ⟨l1, e1, h1⟩ := ih (fun c hc => h c (List.mem_cons_of_mem _ hc))
    refine ⟨{ c0 with data := d0 } :: l1, ?_, ?_⟩
    · rw [relo_cs_loop]
      simp only [hd0, e1]
    · intro p c hp
      cases p with
      | zero =>
        simp only [List.get?_cons_zero, Option.some.injEq] at hp
        subst hp
        exact ⟨d0, hd0, rfl⟩
      | succ p =>
        simp only [List.get?_cons_succ] at hp ⊢
        exact h1 p c hp

theorem int32_idem (x : Int) : int32 (int32 x) = int32 x := by
  rw [int32_eq (int32 x), int32_eq x]; omega

theorem create_maps_loop_created (k : Kernel) (fname : Bytes) (md : Option Bytes) (n : Nat)
    (names : List Bytes) :
    ∀ (i : Nat) (fds : List Int) (w : World) (fds1 : List Int) (w1 : World),
      create_maps_loop k fname md n names i fds w = (.ok fds1, w1) →
      ∃ new, fds1 = fds ++ new ∧ new.length = names.length ∧ (∀ fd ∈ new, int32 fd = fd) ∧
        (names = [] ∨ ∃ m, md = some m ∧ created_by k fname m i w (names.zip new)) := by
  induction names with
  | nil =>
    intro i fds w fds1 w1 h
    simp only [create_maps_loop, Prod.mk.injEq, Res.ok.injEq] at h
    exact ⟨[], by simp [h.1], rfl, fun _ hm => absurd hm (List.not_mem_nil _), Or.inl rfl⟩
  | cons name rest ih =>
    intro i fds w fds1 w1 h
    by_cases hacc : access_ok w (map_pin_loc fname name) = true
    · cases md <;> (rw [create_maps_loop, if_pos hacc] at h; simp at h)
    · cases md with
      | none => rw [create_maps_loop, if_neg hacc] at h; simp at h
      | some m =>
        rw [create_maps_loop, if_neg hacc] at h
        simp only at h
        by_cases hl : m.length < 28 * (i + 1)
        · rw [if_pos hl] at h; simp at h
        · rw [if_neg hl] at h
          generalize hr : bpf_create_map k w (decode_map_def m i).type name
            (decode_map_def m i).key_size (decode_map_def m i).value_size
            (decode_map_def m i).max_entries (decode_map_def m i).map_flags = r at h
          have hr32 : int32 r.1 = r.1 := by
            rw [← hr]; exact int32_idem _
          by_cases hr1 : r.1 < 0
          · rw [if_pos hr1] at h; simp at h
          · rw [if_neg hr1] at h
            by_cases hp1 : (bpf_obj_pin k r.2 r.1 (map_pin_loc fname name)).1 < 0
            · rw [if_pos hp1] at h; simp at h
            · rw [if_neg hp1] at h
              by_cases hni : n ≤ i
              · rw [if_pos hni] at h; simp at h
              · rw [if_neg hni] at h
                obtain ⟨new, h1, h2, h3, h4⟩ := ih _ _ _ _ _ h
                refine ⟨r.1 :: new, by simp [h1], by simp [h2], ?_, Or.inr ⟨m, rfl, ?_⟩⟩
                · intro fd hfd
                  rcases List.mem_cons.mp hfd with rfl | hfd
                  · exact hr32
                  · exact h3 fd hfd
                · rw [List.zip_cons_cons, created_by, hr]
                  refine ⟨rfl, ?_⟩
                  rcases h4 with h4 | ⟨m1, hm1, h4⟩
                  · subst h4
                    simp [created_by]
                  · simp only [Option.some.injEq] at hm1
                    subst hm1
                    exact h4

/-- C3 (amended). `map_fds` is the list `create_maps` returned, called with
any value `n` of `*n`, and `names` the list of `get_map_names`; every relocation entry of every record of `l`
can be processed (`relocs_well_formed`).  For the record `cs` at position `p`
and its entry `i`, whose symbol name `sym_name` is first found at index `j` of
`names` and whose target instruction is an `ld_imm64`: if no later entry of
`cs` against a map name targets the same instruction, then after
`apply_map_relocations` the immediate of the target instruction is
`map_fds[j]`, the handle `bpf_create_map` returned for the name `names[j]`
(`created_by`). -/
theorem relocated_insn_holds_map_handle (k : Kernel) (ext : Ext) (elf : Bytes) (n : Nat)
    (w wm : World)
    (map_fds : List Int) (names : List Bytes) (l : List code_section) (p : Nat)
    (cs : code_section) (rel insns : Bytes) (i : Nat) (sym_name : Bytes) (j : Nat)
    (hcreate : create_maps k ext elf n w = (.ok map_fds, wm))
    (hnames : get_map_names elf = .ok (some names))
    (hwf : ∀ c ∈ l, relocs_well_formed elf names c)
    (hp : l.get? p = some cs) (hrel : cs.rel_data = some rel) (hdata : cs.data = some insns)
    (hi : i < (n_rel cs).toNat)
    (hsym : get_sym64_name_from_index elf
      (int32 (((decode_rel rel i).r_info / 4294967296 : Nat) : Int)) = .ok sym_name)
    (hj : find_map sym_name names 0 = some j)
    (hcode : insn_code insns ((decode_rel rel i).r_offset / 8) = BPF_LD_IMM_DW)
    (hlast : ∀ i1, i < i1 → i1 < (n_rel cs).toNat → ∀ s1,
      get_sym64_name_from_index elf
        (int32 (((decode_rel rel i1).r_info / 4294967296 : Nat) : Int)) = .ok s1 →
      find_map s1 names 0 ≠ none →
      (decode_rel rel i1).r_offset / 8 ≠ (decode_rel rel i).r_offset / 8) :
    ∃ l1 out fd b md,
      apply_map_relocations elf map_fds l = .ok l1 ∧
      l1.get? p = some { cs with data := some out } ∧
      out.length = insns.length ∧
      insn_imm out ((decode_rel rel i).r_offset / 8) = fd ∧
      map_fds.get? j = some fd ∧
      names.get? j = some sym_name ∧
      (∀ j1, j1 < j → names.get? j1 ≠ some sym_name) ∧
      map_fds.length = names.length ∧
      read_section64_by_name (cstr "maps") elf = .ok (b, some md) ∧
      created_by k ext.fname md 0 w (names.zip map_fds) := by
  obtain ⟨b, md, names1, hmd, hn1, hloop⟩ := create_maps_ok_inv k ext elf n w wm map_fds hcreate
  rw [hnames] at hn1
  simp only [Res.ok.injEq, Option.some.injEq] at hn1
  subst hn1
  obtain ⟨new, hnew, hlen, h32, hcb⟩ :=
    create_maps_loop_created k ext.fname md n names 0 [] w map_fds wm hloop
  simp only [List.nil_append] at hnew
  subst hnew
  obtain ⟨_, hjn, hfirst⟩ := find_map_some sym_name names 0 j hj
  simp only [Nat.sub_zero] at hjn hfirst
  have hjl : j < map_fds.length := by rw [hlen]; exact get?_some_lt names j sym_name hjn
  obtain ⟨fd, hfd⟩ : ∃ fd, map_fds.get? j = some fd :=
    ⟨map_fds.get ⟨j, hjl⟩, List.get?_eq_get hjl⟩
  have hfd32 : int32 fd = fd := h32 fd (List.get?_mem hfd)
  obtain ⟨m, hm, hcreated⟩ : ∃ m, md = some m ∧ created_by k ext.fname m 0 w (names.zip map_fds) := by
    rcases hcb with hnil | h
    · rw [hnil] at hjn; simp at hjn
    · exact h
  subst hm
  obtain ⟨l1, el1, hl1⟩ := relo_cs_loop_all elf names map_fds l
    (fun c hc => relo_record_completes elf names map_fds hlen c (hwf c hc))
  obtain ⟨d, hd, hget⟩ := hl1 p cs hp
  obtain ⟨post, hsplit, hpost⟩ := range_split (n_rel cs).toNat i hi
  have hall : ∀ i1 ∈ List.range i ++ i :: post, 16 * (i1 + 1) ≤ rel.length ∧ ∃ s1,
        get_sym64_name_from_index elf
          (int32 (((decode_rel rel i1).r_info / 4294967296 : Nat) : Int)) = .ok s1 ∧
        (find_map s1 names 0 ≠ none → (decode_rel rel i1).r_offset / 8 < 2147483648 ∧
          8 * ((decode_rel rel i1).r_offset / 8) + 8 ≤ insns.length) := by
    intro i1 hi1
    rw [← hsplit] at hi1
    obtain ⟨rel1, insns1, s, h1, h2, h3, h4, h5⟩ := hwf cs (List.get?_mem hp) i1 (List.mem_range.mp hi1)
    rw [hrel] at h1
    rw [hdata] at h2
    simp only [Option.some.injEq] at h1 h2
    subst h1 h2
    exact ⟨h3, s, h4, h5⟩
  obtain ⟨out, eo, lo, mo⟩ := relo_loop_effect elf names map_fds rel hlen (List.range i) post i insns
    sym_name j fd hall hsym hj hfd hcode
    (fun i1 h1 s1 hs1 hf1 => hlast i1 (hpost i1 h1).1 (hpost i1 h1).2 s1 hs1 hf1)
  rw [hrel, hdata, hsplit, eo] at hd
  simp only [Res.ok.injEq, Prod.mk.injEq, and_true] at hd
  subst hd
  refine ⟨l1, out, fd, b, m, ?_, hget, lo, by rw [mo, hfd32], hfd, hjn, hfirst, hlen, hmd, hcreated⟩
  simp only [apply_map_relocations, hnames]
  exact el1

set_option maxRecDepth 100000 in
/-- C3 (counterexample). `create_maps` is called with an array of as many
slots as there are maps.  In `elf_bad_reloc` the second relocation entry is
against `counter`, a map name, and targets the `ld_imm64` instruction 0, but
the first entry has no symbol: the loop is left there and the immediate stays
0, not the handle 3 of `counter`.  In `elf_two_relocs` the entries 0 and 1
target instruction 0 against `counter` (handle 3) and `hits` (handle 5): the
immediate ends as 5, so it is not the handle of the map of entry 0. -/
theorem relocation_not_applied_counterexample :
    (read_code_sections ext0 elf_bad_reloc = .ok [cs_bad_reloc] ∧
      get_map_names elf_bad_reloc = .ok (some [cstr "counter"]) ∧
      (create_maps kernel_yes ext0 elf_bad_reloc 1 world0).1 = .ok [3] ∧
      get_sym64_name_from_index elf_bad_reloc
        (int32 (((decode_rel (mk_rel 0 5 ++ mk_rel 0 1) 1).r_info / 4294967296 : Nat) : Int))
        = .ok (cstr "counter") ∧
      (decode_rel (mk_rel 0 5 ++ mk_rel 0 1) 1).r_offset / 8 = 0 ∧
      insn_code insns_full 0 = BPF_LD_IMM_DW ∧
      apply_map_relocations elf_bad_reloc [3] [cs_bad_reloc] = .ok [cs_bad_reloc] ∧
      insn_imm insns_full 0 = 0) ∧
    (read_code_sections ext0 elf_two_relocs = .ok [cs_two_relocs] ∧
      get_map_names elf_two_relocs = .ok (some [cstr "counter", cstr "hits"]) ∧
      (create_maps kernel_count ext0 elf_two_relocs 2 world0).1 = .ok [3, 5] ∧
      get_sym64_name_from_index elf_two_relocs
        (int32 (((decode_rel (mk_rel 0 1 ++ mk_rel 0 2) 0).r_info / 4294967296 : Nat) : Int))
        = .ok (cstr "counter") ∧
      (decode_rel (mk_rel 0 1 ++ mk_rel 0 2) 0).r_offset / 8 = 0 ∧
      insn_code insns_full 0 = BPF_LD_IMM_DW ∧
      apply_map_relocations elf_two_relocs [3, 5] [cs_two_relocs] =
        .ok [{ cs_two_relocs with
          data := some ([24, 17, 0, 0, 5, 0, 0, 0, 0, 0, 0, 0, 0, 0, 0, 0, 149, 0, 0, 0, 0, 0, 0, 0]) }] ∧
      insn_imm [24, 17, 0, 0, 5, 0, 0, 0, 0, 0, 0, 0, 0, 0, 0, 0, 149, 0, 0, 0, 0, 0, 0, 0] 0
        = 5) := by
  decide

set_option maxRecDepth 100000 in
/-- The relocation entry of `cs_full` can be processed. -/
theorem cs_full_well_formed :
    ∀ c ∈ [cs_full], relocs_well_formed elf_full [cstr "counter"] c := by
  intro c hc
  rw [List.mem_singleton] at hc
  subst hc
  intro i hi
  have h0 : i = 0 := by
    have : (n_rel cs_full).toNat = 1 := by decide
    omega
  subst h0
  exact ⟨mk_rel 0 1, insns_full, cstr "counter", rfl, rfl, by decide, by decide,
    fun _ => by decide⟩

set_option maxRecDepth 100000 in
/-- Witness of C3 (amended) on `elf_full`, with an array of one slot: the
one relocation entry of the record is against `counter`. -/
theorem relocated_insn_holds_map_handle_witness :
    (create_maps kernel_yes ext0 elf_full 1 world0
        = (.ok [3], (create_maps kernel_yes ext0 elf_full 1 world0).2) ∧
      get_map_names elf_full = .ok (some [cstr "counter"]) ∧
      (∀ c ∈ [cs_full], relocs_well_formed elf_full [cstr "counter"] c) ∧
      [cs_full].get? 0 = some cs_full ∧
      0 < (n_rel cs_full).toNat ∧
      get_sym64_name_from_index elf_full
        (int32 (((decode_rel (mk_rel 0 1) 0).r_info / 4294967296 : Nat) : Int))
        = .ok (cstr "counter") ∧
      find_map (cstr "counter") [cstr "counter"] 0 = some 0 ∧
      insn_code insns_full ((decode_rel (mk_rel 0 1) 0).r_offset / 8) = BPF_LD_IMM_DW) ∧
    ∃ l1 out fd b md,
      apply_map_relocations elf_full [3] [cs_full] = .ok l1 ∧
      l1.get? 0 = some { cs_full with data := some out } ∧
      out.length = insns_full.length ∧
      insn_imm out ((decode_rel (mk_rel 0 1) 0).r_offset / 8) = fd ∧
      [(3 : Int)].get? 0 = some fd ∧
      [cstr "counter"].get? 0 = some (cstr "counter") ∧
      (∀ j1, j1 < 0 → [cstr "counter"].get? j1 ≠ some (cstr "counter")) ∧
      [(3 : Int)].length = [cstr "counter"].length ∧
      read_section64_by_name (cstr "maps") elf_full = .ok (b, some md) ∧
      created_by kernel_yes ext0.fname md 0 world0 ([cstr "counter"].zip [3]) :=
  ⟨⟨by decide, by decide, cs_full_well_formed, by decide, by decide, by decide, by decide,
      by decide⟩,
    relocated_insn_holds_map_handle kernel_yes ext0 elf_full 1 world0
      (create_maps kernel_yes ext0 elf_full 1 world0).2 [3] [cstr "counter"] [cs_full] 0 cs_full
      (mk_rel 0 1) insns_full 0 (cstr "counter") 0
      (by decide) (by decide) cs_full_well_formed (by decide) rfl rfl (by decide) (by decide)
      (by decide) (by decide) (fun i1 h1 h2 => absurd h2 (by
        have : (n_rel cs_full).toNat = 1 := by decide
        omega))⟩

set_option maxRecDepth 100000 in
/-- C11. `elf_short_section` has 387 bytes; its section 2 is declared at
offset 64 with size 100000 (short read) and its section 3 at offset 2^63
(the seek fails).  `read_section64_by_id` returns 0 for both, with `*bytes = 0`
and `*section = NULL`. -/
theorem read_section64_by_id_short_read_returns_zero :
    elf_short_section.length = 387 ∧
    (match read_section64_headers_all elf_short_section with
      | .ok sh_table => sh_table.map (fun sh => (sh.sh_offset, sh.sh_size))
      | _ => []) = [(64, 0), (64, 67), (64, 100000), (9223372036854775808, 4)] ∧
    read_section64_by_id elf_short_section 2 = .ok (0, none) ∧
    read_section64_by_id elf_short_section 3 = .ok (0, none) := by
  decide

set_option maxRecDepth 100000 in
/-- C12. In `elf_unresolved_reloc` the relocation entry of the program has
symbol index 5, beyond the one entry of the symbol table, so its name cannot
be read and `apply_map_relocations` leaves its loop there.  `load_prog` still
returns 0, after it has submitted the program to `bpf_prog_load` and pinned
it.  In `elf_bad_reloc`, which has the map `counter`, the entry after the
unresolved one is against `counter`: with the handle 3 of the map,
`apply_map_relocations` leaves the instructions as they are, and
`load_all_cs` submits them to `bpf_prog_load` and returns 0. -/
theorem load_prog_ignores_relocation_failure :
    get_sym64_name_from_index elf_unresolved_reloc
      (int32 (((decode_rel (mk_rel 0 5) 0).r_info / 4294967296 : Nat) : Int))
      = .err (-1) ∧
    load_prog kernel_yes ext0 elf_unresolved_reloc world0 =
      (.ok (),
        { paths := [cstr "/sys/fs/bpf/prog_f_f"]
          calls := [KCall.prog_load 2 (cstr "f") (some insns_full) 24 (some [71, 80, 76, 0]) 1,
                    KCall.obj_pin 3 (cstr "/sys/fs/bpf/prog_f_f")] }) ∧
    get_sym64_name_from_index elf_bad_reloc
      (int32 (((decode_rel (mk_rel 0 5 ++ mk_rel 0 1) 0).r_info / 4294967296 : Nat) : Int))
      = .err (-1) ∧
    read_code_sections ext0 elf_bad_reloc = .ok [cs_bad_reloc] ∧
    apply_map_relocations elf_bad_reloc [3] [cs_bad_reloc] = .ok [cs_bad_reloc] ∧
    load_all_cs kernel_yes ext0 [cs_bad_reloc] (some [71, 80, 76, 0]) world0 =
      (.ok (),
        { paths := [cstr "/sys/fs/bpf/prog_f_f"]
          calls := [KCall.prog_load 2 (cstr "f") (some insns_full) 24 (some [71, 80, 76, 0]) 1,
                    KCall.obj_pin 3 (cstr "/sys/fs/bpf/prog_f_f")] }) := by
  decide

set_option maxRecDepth 100000 in
/-- C16. `sym64_compare` returns 0 for the values 2^32 and 0, in both orders,
and a negative number for the values 2^31 and 0, in both orders.  The symbol
table of `elf_big_value`, read with `sort` set, has the values 0, 2^32, 0 in
this order. -/
theorem sym64_compare_truncates :
    sym64_compare sym_2_32 sym_zero = 0 ∧ sym64_compare sym_zero sym_2_32 = 0 ∧
    sym64_compare sym_2_31 sym_zero = -2147483648 ∧
    sym64_compare sym_zero sym_2_31 = -2147483648 ∧
    (match read_sym64_tab elf_big_value true with
      | .ok (some (_, symtab)) => symtab.map (fun sym => sym.st_value)
      | _ => []) = [0, 4294967296, 0] := by
  decide

set_option maxRecDepth 100000 in
/-- C18. The section table of `elf_prog_last` has 4 entries and its last
section, of index 3, is the program `kprobe/f`.  After the record is built,
the test `i < entries` holds for `i = 3` and `sh_table[4]` is read: the run of
`read_code_sections` is undefined. -/
theorem read_code_sections_reads_past_table :
    (match read_section64_headers_all elf_prog_last with
      | .ok sh_table => sh_table.map (fun sh => sh.sh_name)
      | _ => []) = [0, 1, 32, 45] ∧
    get_sym64_name elf_prog_last 45 = .ok (cstr "kprobe/f") ∧
    read_section64_by_id elf_prog_last 3 = .ok (24, some insns_full) ∧
    read_code_sections ext0 elf_prog_last = .ub := by
  decide

set_option maxRecDepth 100000 in
/-- C19. In `elf_far_reloc` the relocation entry against the map `counter`
has offset 1000 while the program has 24 instruction bytes: `apply_relo`
accesses `insns[125]`, outside the buffer, and the run of
`apply_map_relocations` with the handle of `counter` is undefined.  So is the
run of `load_prog`, in which the handle of `counter` is stored in an array of
`n_maps = 0` slots before. -/
theorem apply_relo_out_of_bounds :
    read_code_sections ext0 elf_far_reloc = .ok [cs_far_reloc] ∧
    (decode_rel (mk_rel 1000 1) 0).r_offset = 1000 ∧
    get_sym64_name_from_index elf_far_reloc
      (int32 (((decode_rel (mk_rel 1000 1) 0).r_info / 4294967296 : Nat) : Int))
      = .ok (cstr "counter") ∧
    get_map_names elf_far_reloc = .ok (some [cstr "counter"]) ∧
    insns_full.length = 24 ∧
    apply_relo insns_full 1000 3 = .ub ∧
    apply_map_relocations elf_far_reloc [3] [cs_far_reloc] = .ub ∧
    (load_prog kernel_yes ext0 elf_far_reloc world0).1 = .ub := by
  decide

set_option maxRecDepth 100000 in
/-- C20. In `elf_maps2` section 2 is named `maps2` and section 3 `maps`.
`read_section64_by_name` with `maps` returns the bytes of section 3, while
the first loop of `get_map_names` stops at section 2; the symbol `counter`,
of section 3, is then not among the map names. -/
theorem maps_lookups_disagree :
    get_sym64_name elf_maps2 80 = .ok (cstr "maps2") ∧
    get_sym64_name elf_maps2 11 = .ok (cstr "maps") ∧
    (match read_section64_headers_all elf_maps2 with
      | .ok sh_table => (sh_table.map (fun sh => sh.sh_name), find_maps_idx elf_maps2 sh_table 0)
      | _ => ([], .ub)) = ([0, 1, 80, 11, 16, 32], .ok (some 2)) ∧
    read_section64_by_name (cstr "maps") elf_maps2 = .ok (28, some (mk_map_def 1 4 8 16)) ∧
    read_section64_by_id elf_maps2 3 = .ok (28, some (mk_map_def 1 4 8 16)) ∧
    (match read_sym64_tab elf_maps2 false with
      | .ok (some (_, symtab)) => symtab.map (fun sym => (sym.st_name, sym.st_shndx))
      | _ => []) = [(0, 0), (24, 3)] ∧
    get_map_names elf_maps2 = .ok (some []) := by
  decide

set_option maxRecDepth 100000 in
/-- The prefix match of `get_map_names` reaches `create_maps`.  In
`elf_maps2_symbol` the section `maps` (index 3) holds one definition and its
one symbol, `counter`, has value 0; the symbol `hits` is in the section
`maps2` (index 2).  `create_maps`, with an array of one slot, creates a map
named `hits` with definition 0 of `maps`, and no map named `counter`. -/
theorem create_maps_uses_wrong_section_symbols :
    (match read_sym64_tab elf_maps2_symbol false with
      | .ok (some (_, symtab)) =>
        symtab.map (fun sym => (sym.st_name, sym.st_shndx, sym.st_value))
      | _ => []) = [(0, 0, 0), (24, 3, 0), (40, 2, 0)] ∧
    get_sym64_name elf_maps2_symbol 24 = .ok (cstr "counter") ∧
    get_sym64_name elf_maps2_symbol 40 = .ok (cstr "hits") ∧
    read_section64_by_name (cstr "maps") elf_maps2_symbol
      = .ok (28, some (mk_map_def 1 4 8 16)) ∧
    create_maps kernel_yes ext0 elf_maps2_symbol 1 world0 =
      (.ok [3],
        { paths := [cstr "/sys/fs/bpf/map_f_hits"]
          calls := [KCall.create_map 1 (cstr "hits") 4 8 16 0,
                    KCall.obj_pin 3 (cstr "/sys/fs/bpf/map_f_hits")] }) := by
  decide

set_option maxRecDepth 100000 in
/-- C14. In `elf_tracepoint_last` the sections 5 and 7 are the programs
`kprobe/f` and `tracepoint/t`, and section 7 is the last one: the look-ahead
after it reads `sh_table[8]` and `read_code_sections` yields no record list.
With one more section after it (`elf_two_progs`) the two records are built. -/
theorem read_code_sections_last_program_section :
    (match read_section64_headers_all elf_tracepoint_last with
      | .ok sh_table => sh_table.map (fun sh => sh.sh_name)
      | _ => []) = [0, 1, 11, 16, 32, 45, 54, 67] ∧
    get_sym64_name elf_tracepoint_last 45 = .ok (cstr "kprobe/f") ∧
    get_sym64_name elf_tracepoint_last 67 = .ok (cstr "tracepoint/t") ∧
    read_code_sections ext0 elf_tracepoint_last = .ub ∧
    (match read_code_sections ext0 elf_two_progs with
      | .ok cs => cs.map (fun c => (c.type, c.name, c.data))
      | _ => []) =
      [(BPF_PROG_TYPE_TRACEPOINT, cstr "t", some insns_full),
       (BPF_PROG_TYPE_KPROBE, cstr "f", some insns_full)] := by
  decide

/-- C15. When the instruction at index `offset / 8` lies in the buffer and
its opcode is not `BPF_LD | BPF_IMM | BPF_DW`, `apply_relo` returns (it has no
status) and the buffer is the one it was given. -/
theorem apply_relo_skips_other_opcodes (insns : Bytes) (offset : Nat) (fd : Int)
    (hidx : offset / 8 < 2147483648)
    (hin : 8 * (offset / 8) + 8 ≤ insns.length)
    (hcode : insn_code insns (offset / 8) ≠ BPF_LD_IMM_DW) :
    apply_relo insns offset fd = .ok insns :=
  apply_relo_not_ld insns offset fd hidx hin hcode

/-- Witness of C15: the instruction `exit` (opcode 0x95) at offset 16 of
`insns_full`. -/
theorem apply_relo_skips_other_opcodes_witness :
    16 / 8 < 2147483648 ∧ 8 * (16 / 8) + 8 ≤ insns_full.length ∧
    insn_code insns_full (16 / 8) ≠ BPF_LD_IMM_DW ∧
    apply_relo insns_full 16 7 = .ok insns_full :=
  ⟨by decide, by decide, by decide,
    apply_relo_skips_other_opcodes insns_full 16 7 (by decide) (by decide) (by decide)⟩

theorem pin_calls (k : Kernel) (w : World) (fd : Int) (path : Bytes) :
    (bpf_obj_pin k w fd path).2.calls = w.calls ++ [KCall.obj_pin fd path] := by
  unfold bpf_obj_pin
  by_cases hk : int32 (k w (KCall.obj_pin fd path)) < 0
  · rw [if_pos hk]
  · rw [if_neg hk]

theorem loaded_and_pinned_loop (k : Kernel) (ext : Ext) (license : Option Bytes)
    (pre : List code_section) :
    ∀ (w wj : World), loaded_and_pinned k ext license pre w wj →
      (∀ rest, load_cs_loop k ext license (pre ++ rest) w = load_cs_loop k ext license rest wj) ∧
      ∃ fds, fds.length = pre.length ∧ (∀ fd ∈ fds, 0 < fd) ∧
        wj.calls = w.calls ++ prog_trace ext license (pre.zip fds) ∧
        wj.paths = (pre.map (fun cs => prog_pin_loc ext.fname cs.name)).reverse ++ w.paths := by
  induction pre with
  | nil =>
    intro w wj h
    simp only [loaded_and_pinned] at h
    subst h
    exact ⟨fun _ => rfl, [], rfl, fun _ hm => absurd hm (List.not_mem_nil _), by simp [prog_trace],
      by simp⟩
  | cons cs pre ih =>
    intro w wj h
    rw [loaded_and_pinned] at h
    obtain ⟨ht, hfree, hfd, hpin, hrest⟩ := h
    generalize hr : bpf_prog_load k w cs.type cs.name cs.data cs.data_len license ext.kvers = r
      at hfd hpin hrest
    have hrc : r.2.calls = w.calls ++
        [KCall.prog_load cs.type cs.name cs.data cs.data_len license ext.kvers] := by
      rw [← hr]; rfl
    have hrp : r.2.paths = w.paths := by rw [← hr]; rfl
    have hpc := pin_calls k r.2 r.1 (prog_pin_loc ext.fname cs.name)
    have hpp := pin_paths k r.2 r.1 (prog_pin_loc ext.fname cs.name) hpin
    obtain ⟨h1, fds, h2, h3, h4, h5⟩ := ih _ _ hrest
    refine ⟨?_, r.1 :: fds, by simp [h2], ?_, ?_, ?_⟩
    · intro rest
      have hacc : ¬ access_ok w (prog_pin_loc ext.fname cs.name) = true := by
        simpa [access_ok] using hfree
      rw [List.cons_append, load_cs_loop, if_pos ht, if_neg hacc, hr,
        if_neg (by omega), if_neg hpin]
      exact h1 rest
    · intro fd hm
      rcases List.mem_cons.mp hm with rfl | hm
      · exact hfd
      · exact h3 fd hm
    · rw [h4, hpc, hrc, List.zip_cons_cons, prog_trace, List.append_assoc, List.append_assoc]
      rfl
    · rw [h5, hpp, hrp]
      simp

/-- C13 (amended). When `get_machine_kvers()` succeeds and the records before
record `c` are loaded and pinned (`loaded_and_pinned`: their pin paths are
free, the kernel returns a positive handle and the pin does not fail), which
leads to state `wj`: the kernel calls issued are the load and the pin of
these records, in order; if the pin path of `c` exists in `wj`, `load_all_cs`
returns `-EEXIST` in state `wj`, with no call for `c` or a later record; if
it is free and `bpf_prog_load` returns a handle that is not positive,
`load_all_cs` returns `-EINVAL` and the load of `c` is the last call. -/
theorem load_all_cs_stops_at_first_failure (k : Kernel) (ext : Ext) (license : Option Bytes)
    (pre : List code_section) (c : code_section) (post : List code_section) (w wj : World)
    (hk : ¬ ext.kvers < 0)
    (hpre : loaded_and_pinned k ext license pre w wj)
    (htype : c.type = BPF_PROG_TYPE_KPROBE ∨ c.type = BPF_PROG_TYPE_TRACEPOINT) :
    (∃ fds, fds.length = pre.length ∧ (∀ fd ∈ fds, 0 < fd) ∧
      wj.calls = w.calls ++ prog_trace ext license (pre.zip fds) ∧
      wj.paths = (pre.map (fun cs => prog_pin_loc ext.fname cs.name)).reverse ++ w.paths) ∧
    (prog_pin_loc ext.fname c.name ∈ wj.paths →
      load_all_cs k ext (pre ++ c :: post) license w = (.err (-EEXIST), wj)) ∧
    (prog_pin_loc ext.fname c.name ∉ wj.paths →
      (bpf_prog_load k wj c.type c.name c.data c.data_len license ext.kvers).1 ≤ 0 →
      load_all_cs k ext (pre ++ c :: post) license w =
        (.err (-EINVAL), { wj with calls := wj.calls ++
          [KCall.prog_load c.type c.name c.data c.data_len license ext.kvers] })) := by
  obtain ⟨h1, h2⟩ := loaded_and_pinned_loop k ext license pre w wj hpre
  refine ⟨h2, ?_, ?_⟩
  · intro hex
    have hacc : access_ok wj (prog_pin_loc ext.fname c.name) = true := by
      simpa [access_ok] using hex
    rw [load_all_cs, if_neg hk, h1, load_cs_loop, if_pos htype, if_pos hacc]
  · intro hfree hrej
    have hacc : ¬ access_ok wj (prog_pin_loc ext.fname c.name) = true := by
      simpa [access_ok] using hfree
    rw [load_all_cs, if_neg hk, h1, load_cs_loop, if_pos htype, if_neg hacc, if_pos hrej]
    rfl

set_option maxRecDepth 100000 in
/-- C13 (counterexample). With `get_machine_kvers()` failing, `load_all_cs`
returns -1 although the pin path of record 0 exists.  With the records `f`,
`g`, the pin path of `g` existing and a kernel that refuses every load,
`load_all_cs` returns `-EINVAL` after it has submitted `f`, which is not
pinned. -/
theorem load_all_cs_conflict_counterexample :
    (prog_pin_loc ext_no_kvers.fname cs_f.name ∈ world_f.paths ∧
      load_all_cs kernel_yes ext_no_kvers [cs_f] none world_f = (.err (-1), world_f)) ∧
    (prog_pin_loc ext0.fname cs_f.name ∉ world_g.paths ∧
      prog_pin_loc ext0.fname cs_g.name ∈ world_g.paths ∧
      load_all_cs kernel_no_load ext0 [cs_f, cs_g] none world_g =
        (.err (-EINVAL),
          { paths := [cstr "/sys/fs/bpf/prog_f_g"]
            calls := [KCall.prog_load 2 (cstr "f") (some insns_full) 24 none 1] })) := by
  decide

set_option maxRecDepth 100000 in
/-- The record `f` is loaded and pinned from `world_g` by the kernel that
accepts every call. -/
theorem cs_f_loaded_and_pinned :
    loaded_and_pinned kernel_yes ext0 none [cs_f] world_g world_g_f :=
  ⟨Or.inl rfl, by decide, by decide, by decide,
    show world_g_f = _ by decide⟩

set_option maxRecDepth 100000 in
/-- Witness of C13 (amended): records `f`, `g` with the pin path of `g`
existing. -/
theorem load_all_cs_stops_at_first_failure_witness :
    (¬ ext0.kvers < 0 ∧ loaded_and_pinned kernel_yes ext0 none [cs_f] world_g world_g_f ∧
      (cs_g.type = BPF_PROG_TYPE_KPROBE ∨ cs_g.type = BPF_PROG_TYPE_TRACEPOINT)) ∧
    ((∃ fds, fds.length = [cs_f].length ∧ (∀ fd ∈ fds, 0 < fd) ∧
      world_g_f.calls = world_g.calls ++ prog_trace ext0 none ([cs_f].zip fds) ∧
      world_g_f.paths
        = ([cs_f].map (fun cs => prog_pin_loc ext0.fname cs.name)).reverse ++ world_g.paths) ∧
    (prog_pin_loc ext0.fname cs_g.name ∈ world_g_f.paths →
      load_all_cs kernel_yes ext0 ([cs_f] ++ cs_g :: []) none world_g
        = (.err (-EEXIST), world_g_f)) ∧
    (prog_pin_loc ext0.fname cs_g.name ∉ world_g_f.paths →
      (bpf_prog_load kernel_yes world_g_f cs_g.type cs_g.name cs_g.data cs_g.data_len none
        ext0.kvers).1 ≤ 0 →
      load_all_cs kernel_yes ext0 ([cs_f] ++ cs_g :: []) none world_g =
        (.err (-EINVAL), { world_g_f with calls := world_g_f.calls ++
          [KCall.prog_load cs_g.type cs_g.name cs_g.data cs_g.data_len none ext0.kvers] }))) :=
  ⟨⟨by decide, cs_f_loaded_and_pinned, Or.inr rfl⟩,
    load_all_cs_stops_at_first_failure kernel_yes ext0 none [cs_f] cs_g [] world_g world_g_f
      (by decide) cs_f_loaded_and_pinned (Or.inr rfl)⟩

theorem sym64_compare_le (a b : Elf64_Sym) (ha : a.st_value < 2147483648)
    (hb : b.st_value < 2147483648) : sym64_compare a b ≤ 0 ↔ a.st_value ≤ b.st_value := by
  unfold sym64_compare
  rw [int32_eq]
  omega

theorem qsort_insert_pairwise (x : Elf64_Sym) (hx : x.st_value < 2147483648)
    (l : List Elf64_Sym) (hl : ∀ y ∈ l, y.st_value < 2147483648)
    (hp : l.Pairwise (fun a b => a.st_value ≤ b.st_value)) :
    (qsort_insert sym64_compare x l).Pairwise (fun a b => a.st_value ≤ b.st_value) := by
  induction l with
  | nil => simp [qsort_insert]
  | cons y ys ih =>
    rw [List.pairwise_cons] at hp
    have hy := hl y (List.mem_cons_self _ _)
    rw [qsort_insert]
    by_cases hc : sym64_compare x y ≤ 0
    · rw [if_pos hc]
      have hxy := (sym64_compare_le x y hx hy).mp hc
      rw [List.pairwise_cons]
      refine ⟨?_, List.pairwise_cons.mpr hp⟩
      intro z hz
      rcases List.mem_cons.mp hz with rfl | hz
      · exact hxy
      · exact Nat.le_trans hxy (hp.1 z hz)
    · rw [if_neg hc]
      have hyx : y.st_value ≤ x.st_value := by
        have := (sym64_compare_le x y hx hy).not.mp hc
        omega
      rw [List.pairwise_cons]
      refine ⟨?_, ih (fun z hz => hl z (List.mem_cons_of_mem _ hz)) hp.2⟩
      intro z hz
      rcases List.mem_cons.mp ((qsort_insert_perm sym64_compare x ys).mem_iff.mp hz) with rfl | hz
      · exact hyx
      · exact hp.1 z hz

theorem qsort_pairwise (l : List Elf64_Sym) (hl : ∀ y ∈ l, y.st_value < 2147483648) :
    (qsort sym64_compare l).Pairwise (fun a b => a.st_value ≤ b.st_value) := by
  induction l with
  | nil => simp [qsort]
  | cons x xs ih =>
    rw [qsort]
    exact qsort_insert_pairwise x (hl x (List.mem_cons_self _ _)) _
      (fun y hy => hl y (List.mem_cons_of_mem _ ((qsort_perm _ _).mem_iff.mp hy)))
      (ih (fun y hy => hl y (List.mem_cons_of_mem _ hy)))

theorem range_mul_sorted (N : Nat) :
    ((List.range N).map (fun k => 28 * k)).Sorted (· ≤ ·) := by
  rw [List.Sorted, List.pairwise_map]
  exact (List.pairwise_lt_range N).imp (fun h => by omega)

theorem sorted_map_values (syms : List Elf64_Sym) (maps_idx N : Nat)
    (hsmall : ∀ s ∈ syms, s.st_value < 2147483648)
    (hvals : ((syms.filter (fun s => decide (s.st_shndx = maps_idx))).map
      (fun s => s.st_value)).Perm ((List.range N).map (fun k => 28 * k))) :
    (((qsort sym64_compare syms).filter (fun s => decide (s.st_shndx = maps_idx))).map
      (fun s => s.st_value)) = (List.range N).map (fun k => 28 * k) := by
  apply List.eq_of_perm_of_sorted _ _ (range_mul_sorted N)
  · exact (((qsort_perm sym64_compare syms).filter _).map _).trans hvals
  · rw [List.Sorted, List.pairwise_map]
    exact (qsort_pairwise syms hsmall).filter _

/-- C17 (amended). `raw` is the symbol table in table order and `maps_idx`
the section index `get_map_names` finds; that section is the one `create_maps`
reads as `maps` (`md`), no symbol value reaches 2^31, and the values of the
symbols of that section are, in some order, 0, 28, ..., 28 (n - 1), `n` being
the number of definitions in `md`.  When `create_maps`, called with any value
`n` of `*n`, succeeds, the names it
used are those of the map symbols `ms` taken by increasing value, the `i`-th
of value `28 * i`, and the map of the `i`-th name was created with definition
`i` of `md` (`created_by`). -/
theorem create_maps_pairs_symbol_with_definition (k : Kernel) (ext : Ext) (elf : Bytes)
    (n : Nat) (w wm : World) (map_fds : List Int) (bytes : Int) (raw : List Elf64_Sym)
    (sh_table : List Elf64_Shdr) (maps_idx : Nat) (b : Int) (md : Bytes)
    (nm : Elf64_Sym → Bytes)
    (hraw : read_sym64_tab elf false = .ok (some (bytes, raw)))
    (hb : 0 ≤ bytes)
    (hsh : read_section64_headers_all elf = .ok sh_table)
    (hidx : find_maps_idx elf sh_table 0 = .ok (some maps_idx))
    (hmd : read_section64_by_name (cstr "maps") elf = .ok (b, some md))
    (_hsame : read_section64_by_id elf maps_idx = .ok (b, some md))
    (hsmall : ∀ s ∈ raw.take (bytes / 24).toNat, s.st_value < 2147483648)
    (hvals : (((raw.take (bytes / 24).toNat).filter
        (fun s => decide (s.st_shndx = maps_idx))).map (fun s => s.st_value)).Perm
      ((List.range (md.length / 28)).map (fun k => 28 * k)))
    (hnm : ∀ s ∈ raw.take (bytes / 24).toNat, s.st_shndx = maps_idx →
      get_sym64_name elf (int32 s.st_name) = .ok (nm s))
    (hcreate : create_maps k ext elf n w = (.ok map_fds, wm)) :
    ∃ ms : List Elf64_Sym,
      ms.Perm ((raw.take (bytes / 24).toNat).filter (fun s => decide (s.st_shndx = maps_idx))) ∧
      ms.map (fun s => s.st_value) = (List.range (md.length / 28)).map (fun k => 28 * k) ∧
      get_map_names elf = .ok (some (ms.map nm)) ∧
      map_fds.length = md.length / 28 ∧
      created_by k ext.fname md 0 w ((ms.map nm).zip map_fds) := by
  have hnames := get_map_names_eq elf bytes raw sh_table maps_idx nm hraw hb hsh hidx hnm
  have hv := sorted_map_values (raw.take (bytes / 24).toNat) maps_idx (md.length / 28) hsmall hvals
  refine ⟨(qsort sym64_compare (raw.take (bytes / 24).toNat)).filter
    (fun s => decide (s.st_shndx = maps_idx)), (qsort_perm _ _).filter _, hv, hnames, ?_⟩
  generalize (qsort sym64_compare (raw.take (bytes / 24).toNat)).filter
    (fun s => decide (s.st_shndx = maps_idx)) = ms at hnames hv
  obtain ⟨b1, md1, names1, hmd1, hn1, hloop⟩ :=
    create_maps_ok_inv k ext elf n w wm map_fds hcreate
  rw [hnames] at hn1
  rw [hmd] at hmd1
  simp only [Res.ok.injEq, Option.some.injEq, Prod.mk.injEq] at hn1 hmd1
  subst hn1
  obtain ⟨_, hmd1⟩ := hmd1
  subst hmd1
  obtain ⟨new, hnew, hlen, _, hcb⟩ :=
    create_maps_loop_created k ext.fname (some md) n (ms.map nm) 0 [] w map_fds wm hloop
  simp only [List.nil_append] at hnew
  subst hnew
  have hl : ms.length = md.length / 28 := by
    have := congrArg List.length hv
    simpa using this
  refine ⟨by rw [hlen, List.length_map, hl], ?_⟩
  rcases hcb with hnil | ⟨m, hm, hc⟩
  · rw [hnil]
    simp [created_by]
  · simp only [Option.some.injEq] at hm
    subst hm
    exact hc

set_option maxRecDepth 100000 in
/-- C17 (counterexample). The map symbols of `elf_swapped` have the values 28
and 0 and its `maps` section holds two definitions; with the pin path of
`counter` existing, `create_maps`, with an array of two slots, returns
`-EEXIST` and creates no map. -/
theorem create_maps_conflict_creates_nothing :
    read_sym64_tab elf_swapped false = .ok (some (72, syms_swapped)) ∧
    read_section64_by_name (cstr "maps") elf_swapped
      = .ok (56, some (mk_map_def 1 4 8 16 ++ mk_map_def 2 4 4 1)) ∧
    get_map_names elf_swapped = .ok (some [cstr "counter", cstr "hits"]) ∧
    create_maps kernel_yes ext0 elf_swapped 2 world_counter
      = (.err (-EEXIST), world_counter) := by
  decide

set_option maxRecDepth 100000 in
/-- Witness of C17 (amended) on `elf_swapped`, whose map symbols stand in the
table in the order `hits` (value 28), `counter` (value 0), with an array of
two slots. -/
theorem create_maps_pairs_symbol_with_definition_witness :
    (read_sym64_tab elf_swapped false = .ok (some (72, syms_swapped)) ∧
      (0 : Int) ≤ 72 ∧
      read_section64_headers_all elf_swapped = .ok shdrs_swapped ∧
      find_maps_idx elf_swapped shdrs_swapped 0 = .ok (some 2) ∧
      read_section64_by_name (cstr "maps") elf_swapped
        = .ok (56, some (mk_map_def 1 4 8 16 ++ mk_map_def 2 4 4 1)) ∧
      read_section64_by_id elf_swapped 2
        = .ok (56, some (mk_map_def 1 4 8 16 ++ mk_map_def 2 4 4 1)) ∧
      (∀ s ∈ syms_swapped.take ((72 : Int) / 24).toNat, s.st_value < 2147483648) ∧
      (((syms_swapped.take ((72 : Int) / 24).toNat).filter
          (fun s => decide (s.st_shndx = 2))).map (fun s => s.st_value)).Perm
        ((List.range ((mk_map_def 1 4 8 16 ++ mk_map_def 2 4 4 1).length / 28)).map
          (fun k => 28 * k)) ∧
      (∀ s ∈ syms_swapped.take ((72 : Int) / 24).toNat, s.st_shndx = 2 →
        get_sym64_name elf_swapped (int32 s.st_name)
          = .ok (if s.st_name = 40 then cstr "hits" else cstr "counter")) ∧
      create_maps kernel_count ext0 elf_swapped 2 world0
        = (.ok [3, 5], (create_maps kernel_count ext0 elf_swapped 2 world0).2)) ∧
    ∃ ms : List Elf64_Sym,
      ms.Perm ((syms_swapped.take ((72 : Int) / 24).toNat).filter
        (fun s => decide (s.st_shndx = 2))) ∧
      ms.map (fun s => s.st_value)
        = (List.range ((mk_map_def 1 4 8 16 ++ mk_map_def 2 4 4 1).length / 28)).map
          (fun k => 28 * k) ∧
      get_map_names elf_swapped = .ok (some
        (ms.map (fun s => if s.st_name = 40 then cstr "hits" else cstr "counter"))) ∧
      [(3 : Int), 5].length = (mk_map_def 1 4 8 16 ++ mk_map_def 2 4 4 1).length / 28 ∧
      created_by kernel_count ext0.fname (mk_map_def 1 4 8 16 ++ mk_map_def 2 4 4 1) 0 world0
        ((ms.map (fun s => if s.st_name = 40 then cstr "hits" else cstr "counter")).zip
          [3, 5]) :=
  ⟨⟨by decide, by decide, by decide, by decide, by decide, by decide, by decide, by decide,
      by decide, by decide⟩,
    create_maps_pairs_symbol_with_definition kernel_count ext0 elf_swapped 2 world0
      (create_maps kernel_count ext0 elf_swapped 2 world0).2 [3, 5] 72 syms_swapped shdrs_swapped 2
      56 (mk_map_def 1 4 8 16 ++ mk_map_def 2 4 4 1)
      (fun s => if s.st_name = 40 then cstr "hits" else cstr "counter")
      (by decide) (by decide) (by decide) (by decide) (by decide) (by decide) (by decide)
      (by decide) (by decide) (by decide)⟩

theorem read_section64_by_id_bytes (elf : Bytes) (sh_table : List Elf64_Shdr) (i : Nat)
    (sh : Elf64_Shdr) (hsh : read_section64_headers_all elf = .ok sh_table)
    (hi : sh_table.get? i = some sh) :
    ∃ b, read_section64_by_id elf i = .ok (b, section_bytes elf sh) := by
  unfold read_section64_by_id section_bytes
  rw [hsh]
  simp only [hi]
  by_cases hf : fseek_ok sh.sh_offset = true
  · simp only [hf, not_true_eq_false, if_false, if_true]
    cases fread1 elf sh.sh_offset sh.sh_size with
    | none => exact ⟨0, rfl⟩
    | some sec => exact ⟨_, rfl⟩
  · simp only [hf, not_false_eq_true, if_true, if_false]
    exact ⟨0, rfl⟩

theorem code_section_at_spec (ext : Ext) (elf : Bytes) (sh_table : List Elf64_Shdr)
    (nm : Nat → Bytes) (i : Nat) (sh : Elf64_Shdr)
    (hsh : read_section64_headers_all elf = .ok sh_table)
    (hnm : ∀ i sh, sh_table.get? i = some sh →
      get_sym64_name elf (int32 sh.sh_name) = .ok (nm i))
    (hnext : ∀ i, i < sh_table.length → prog_kind (nm i) ≠ none → i + 1 < sh_table.length)
    (hi : sh_table.get? i = some sh) :
    ∃ r, code_section_at ext elf sh_table i sh = .ok r ∧
      r.map (fun c => (c.type, c.data))
        = (prog_kind (nm i)).map (fun kind => (kind, section_bytes elf sh)) := by
  have hil : i < sh_table.length := get?_some_lt sh_table i sh hi
  obtain ⟨b, hb⟩ := read_section64_by_id_bytes elf sh_table i sh hsh hi
  unfold code_section_at
  rw [hnm i sh hi]
  simp only
  by_cases hk : _startswith (nm i) (cstr "kprobe/") = true
  · have hpk : prog_kind (nm i) = some BPF_PROG_TYPE_KPROBE := by simp [prog_kind, hk]
    obtain ⟨sh1, hsh1⟩ : ∃ sh1, sh_table.get? (i + 1) = some sh1 :=
      ⟨sh_table.get ⟨i + 1, hnext i hil (by rw [hpk]; simp)⟩, List.get?_eq_get _⟩
    obtain ⟨b1, hb1⟩ := read_section64_by_id_bytes elf sh_table (i + 1) sh1 hsh hsh1
    rw [hpk]
    simp only [hk, Bool.true_or, if_true, hb, hsh1, hnm (i + 1) sh1 hsh1, hb1]
    cases section_bytes elf sh with
    | none => exact ⟨_, rfl, rfl⟩
    | some d =>
      simp only
      split
      · exact ⟨_, rfl, rfl⟩
      · exact ⟨_, rfl, rfl⟩
  · by_cases ht : _startswith (nm i) (cstr "tracepoint/") = true
    · have hpk : prog_kind (nm i) = some BPF_PROG_TYPE_TRACEPOINT := by simp [prog_kind, hk, ht]
      obtain ⟨sh1, hsh1⟩ : ∃ sh1, sh_table.get? (i + 1) = some sh1 :=
        ⟨sh_table.get ⟨i + 1, hnext i hil (by rw [hpk]; simp)⟩, List.get?_eq_get _⟩
      obtain ⟨b1, hb1⟩ := read_section64_by_id_bytes elf sh_table (i + 1) sh1 hsh hsh1
      rw [hpk]
      simp only [hk, ht, Bool.false_or, if_true, hb, hsh1, hnm (i + 1) sh1 hsh1, hb1,
        Bool.false_eq_true, if_false]
      cases section_bytes elf sh with
      | none => exact ⟨_, rfl, rfl⟩
      | some d =>
        simp only
        split
        · exact ⟨_, rfl, rfl⟩
        · exact ⟨_, rfl, rfl⟩
    · have hpk : prog_kind (nm i) = none := by simp [prog_kind, hk, ht]
      rw [hpk]
      simp only [hk, ht, Bool.or_self, Bool.false_eq_true, if_false]
      exact ⟨none, rfl, rfl⟩
theorem read_code_loop_spec (ext : Ext) (elf : Bytes) (sh_table : List Elf64_Shdr)
    (nm : Nat → Bytes)
    (hsh : read_section64_headers_all elf = .ok sh_table)
    (hnm : ∀ i sh, sh_table.get? i = some sh →
      get_sym64_name elf (int32 sh.sh_name) = .ok (nm i))
    (hnext : ∀ i, i < sh_table.length → prog_kind (nm i) ≠ none → i + 1 < sh_table.length) :
    ∀ (rest : List Elf64_Shdr) (i : Nat) (cs_ret : List code_section),
      (∀ j sh, rest.get? j = some sh → sh_table.get? (i + j) = some sh) →
      ∃ cs, read_code_loop ext elf sh_table rest i cs_ret = .ok cs ∧
        cs.reverse.map (fun c => (c.type, c.data))
          = cs_ret.reverse.map (fun c => (c.type, c.data)) ++ program_sections elf nm rest i := by
  intro rest
  induction rest with
  | nil =>
    intro i cs_ret _
    exact ⟨cs_ret, rfl, by simp [program_sections]⟩
  | cons sh rest ih =>
    intro i cs_ret hrest
    have hi : sh_table.get? i = some sh := hrest 0 sh rfl
    obtain ⟨r, hr, hrm⟩ := code_section_at_spec ext elf sh_table nm i sh hsh hnm hnext hi
    have hrest1 : ∀ j sh1, rest.get? j = some sh1 → sh_table.get? (i + 1 + j) = some sh1 := by
      intro j sh1 hj
      have := hrest (j + 1) sh1 (by simpa using hj)
      rw [show i + 1 + j = i + (j + 1) by omega]
      exact this
    rw [read_code_loop, hr]
    cases r with
    | none =>
      obtain ⟨cs, h1, h2⟩ := ih (i + 1) cs_ret hrest1
      refine ⟨cs, h1, ?_⟩
      rw [h2, program_sections]
      cases hpk : prog_kind (nm i) with
      | none => rfl
      | some kind => rw [hpk] at hrm; simp at hrm
    | some c =>
      obtain ⟨cs, h1, h2⟩ := ih (i + 1) (c :: cs_ret) hrest1
      refine ⟨cs, h1, ?_⟩
      rw [h2, program_sections]
      cases hpk : prog_kind (nm i) with
      | none => rw [hpk] at hrm; simp at hrm
      | some kind =>
        rw [hpk] at hrm
        simp only [Option.map_some', Option.some.injEq] at hrm
        simp [hrm]

/-- One record per program section, of the kind of its name and with its
bytes, when the look-ahead stays inside the section table. -/
theorem read_code_sections_program_sections (ext : Ext) (elf : Bytes)
    (sh_table : List Elf64_Shdr) (nm : Nat → Bytes)
    (hsh : read_section64_headers_all elf = .ok sh_table)
    (hnm : ∀ i sh, sh_table.get? i = some sh →
      get_sym64_name elf (int32 sh.sh_name) = .ok (nm i))
    (hnext : ∀ i, i < sh_table.length → prog_kind (nm i) ≠ none → i + 1 < sh_table.length) :
    ∃ cs, read_code_sections ext elf = .ok cs ∧
      cs.reverse.map (fun c => (c.type, c.data)) = program_sections elf nm sh_table 0 := by
  obtain ⟨cs, h1, h2⟩ := read_code_loop_spec ext elf sh_table nm hsh hnm hnext sh_table 0 []
    (fun j sh hj => by rw [Nat.zero_add]; exact hj)
  refine ⟨cs, ?_, by simpa using h2⟩
  rw [read_code_sections, hsh]
  exact h1

end Loader
